import Mathlib

/-!
Shallow embedding of the nitter scraper backend (`src/backend/storage.py`,
`src/backend/nitter_client.py`, `src/backend/app.py`) and proofs settling
the frozen claims about it.

Modelling conventions:

* Python dict/list/str/int/bool/None payloads that travel through
  `json.dumps` / `json.loads` are modelled by the inductive `JsonVal`;
  `dumps` and `json_loads` below model the two library calls (numbers are
  modelled as integers, which covers every value the program itself
  produces and every input used in the theorems).
* Wall-clock instants (`datetime.now(timezone.utc)`, its ISO strings, and
  the values SQLite's `datetime()` extracts from the stored `created_at`
  text) are modelled as natural numbers; monotonic instants
  (`time.monotonic()`) and token balances (Python floats) are modelled as
  rationals, making the token-bucket arithmetic exact.
* The two sqlite tables are modelled as Lean lists of rows; `INSERT OR
  IGNORE`, `DELETE ... WHERE`, and `ORDER BY ... DESC LIMIT n` become the
  corresponding list operations.
-/

set_option maxHeartbeats 1000000
set_option maxRecDepth 100000

namespace Nitter

/-- JSON values: the model of the Python payloads fed to `json.dumps` and
produced by `json.loads`. -/
inductive JsonVal where
  | null : JsonVal
  | bool (b : Bool) : JsonVal
  | num (n : Int) : JsonVal
  | str (s : String) : JsonVal
  | arr (xs : List JsonVal) : JsonVal
  | obj (fields : List (String × JsonVal)) : JsonVal

/-- Hex digit used when escaping control characters, lowercase as in
Python's `json`. -/
def hexDigit (n : Nat) : Char :=
  if n < 10 then Char.ofNat ('0'.toNat + n) else Char.ofNat ('a'.toNat + n - 10)

/-- Escaping of one character inside a JSON string literal, as performed by
`json.dumps(..., ensure_ascii=False)`. -/
def escapeChar (c : Char) : String :=
  if c = '"' then "\\\""
  else if c = '\\' then "\\\\"
  else if c = '\n' then "\\n"
  else if c = '\t' then "\\t"
  else if c = '\r' then "\\r"
  else if c = Char.ofNat 8 then "\\b"
  else if c = Char.ofNat 12 then "\\f"
  else if c.toNat < 32 then
    String.mk ['\\', 'u', '0', '0', hexDigit (c.toNat / 16), hexDigit (c.toNat % 16)]
  else String.singleton c

/-- JSON-escaped string literal including the surrounding quotes. -/
def quoteStr (s : String) : String :=
  "\"" ++ String.join (s.data.map escapeChar) ++ "\""

mutual
/-- Model of `json.dumps(v, ensure_ascii=False)` with the default
separators. -/
def dumps : JsonVal → String
  | .null => "null"
  | .bool true => "true"
  | .bool false => "false"
  | .num n => toString n
  | .str s => quoteStr s
  | .arr xs => "[" ++ dumpsArr xs ++ "]"
  | .obj fs => "\x7b" ++ dumpsObj fs ++ "\x7d"

/-- Comma-joined serialization of an array body. -/
def dumpsArr : List JsonVal → String
  | [] => ""
  | [x] => dumps x
  | x :: y :: rest => dumps x ++ ", " ++ dumpsArr (y :: rest)

/-- Comma-joined serialization of an object body. -/
def dumpsObj : List (String × JsonVal) → String
  | [] => ""
  | [kv] => quoteStr kv.1 ++ ": " ++ dumps kv.2
  | kv :: f :: rest => quoteStr kv.1 ++ ": " ++ dumps kv.2 ++ ", " ++ dumpsObj (f :: rest)
end

/-- JSON insignificant whitespace, as accepted by Python's `json.loads`. -/
def jsonWs (c : Char) : Bool :=
  c = ' ' || c = '\t' || c = '\n' || c = '\r'

/-- Value of one hex digit. -/
def hexVal (c : Char) : Option Nat :=
  if '0' ≤ c ∧ c ≤ '9' then some (c.toNat - '0'.toNat)
  else if 'a' ≤ c ∧ c ≤ 'f' then some (c.toNat - 'a'.toNat + 10)
  else if 'A' ≤ c ∧ c ≤ 'F' then some (c.toNat - 'A'.toNat + 10)
  else none

/-- Parse the body of a JSON string literal (after the opening quote);
returns the decoded characters and the input after the closing quote. -/
def parseStr : Nat → List Char → Option (List Char × List Char)
  | 0, _ => none
  | _, [] => none
  | fuel + 1, c :: rest =>
    if c = '"' then some ([], rest)
    else if c = '\\' then
      match rest with
      | [] => none
      | e :: rest2 =>
        let dec : Option (Char × List Char) :=
          if e = '"' then some ('"', rest2)
          else if e = '\\' then some ('\\', rest2)
          else if e = '/' then some ('/', rest2)
          else if e = 'n' then some ('\n', rest2)
          else if e = 't' then some ('\t', rest2)
          else if e = 'r' then some ('\r', rest2)
          else if e = 'b' then some (Char.ofNat 8, rest2)
          else if e = 'f' then some (Char.ofNat 12, rest2)
          else if e = 'u' then
            match rest2 with
            | h1 :: h2 :: h3 :: h4 :: rest3 =>
              match hexVal h1, hexVal h2, hexVal h3, hexVal h4 with
              | some a, some b, some c3, some d =>
                  some (Char.ofNat (((a * 16 + b) * 16 + c3) * 16 + d), rest3)
              | _, _, _, _ => none
            | _ => none
          else none
        match dec with
        | some (ch, rest3) =>
          match parseStr fuel rest3 with
          | some (cs, rest4) => some (ch :: cs, rest4)
          | none => none
        | none => none
    else
      match parseStr fuel rest with
      | some (cs, rest2) => some (c :: cs, rest2)
      | none => none

/-- Parse a JSON integer literal (the model covers the integer subset of
JSON numbers, which is all the program and the theorems use). -/
def parseNum (cs : List Char) : Option (Int × List Char) :=
  let p := match cs with
    | '-' :: rest => (true, rest)
    | _ => (false, cs)
  let ds := p.2.takeWhile Char.isDigit
  let rest := p.2.dropWhile Char.isDigit
  if ds = [] then none
  else if 1 < ds.length ∧ ds.head? = some '0' then none
  else match rest with
    | '.' :: _ => none
    | 'e' :: _ => none
    | 'E' :: _ => none
    | _ =>
      let n : Nat := ds.foldl (fun acc c => acc * 10 + (c.toNat - '0'.toNat)) 0
      some (if p.1 then -(n : Int) else (n : Int), rest)

mutual
/-- Recursive-descent JSON value parser; with `parseFields` and
`parseItems` this is the model of Python's `json.loads` grammar. -/
def parseVal : Nat → List Char → Option (JsonVal × List Char)
  | 0, _ => none
  | fuel + 1, cs0 =>
    match cs0.dropWhile jsonWs with
    | [] => none
    | '\x7b' :: rest =>
      match rest.dropWhile jsonWs with
      | '\x7d' :: rest2 => some (JsonVal.obj [], rest2)
      | _ =>
        match parseFields fuel (rest.dropWhile jsonWs) with
        | some (fs, rest2) => some (JsonVal.obj fs, rest2)
        | none => none
    | '[' :: rest =>
      match rest.dropWhile jsonWs with
      | ']' :: rest2 => some (JsonVal.arr [], rest2)
      | _ =>
        match parseItems fuel (rest.dropWhile jsonWs) with
        | some (xs, rest2) => some (JsonVal.arr xs, rest2)
        | none => none
    | '"' :: rest =>
      match parseStr (rest.length + 1) rest with
      | some (cs, rest2) => some (JsonVal.str (String.mk cs), rest2)
      | none => none
    | 't' :: 'r' :: 'u' :: 'e' :: rest => some (JsonVal.bool true, rest)
    | 'f' :: 'a' :: 'l' :: 's' :: 'e' :: rest => some (JsonVal.bool false, rest)
    | 'n' :: 'u' :: 'l' :: 'l' :: rest => some (JsonVal.null, rest)
    | cs =>
      match parseNum cs with
      | some (n, rest) => some (JsonVal.num n, rest)
      | none => none

/-- Parse the members of a JSON object after the opening brace (first
member expected at the head of the input). -/
def parseFields : Nat → List Char → Option (List (String × JsonVal) × List Char)
  | 0, _ => none
  | fuel + 1, cs =>
    match cs with
    | '"' :: rest =>
      match parseStr (rest.length + 1) rest with
      | some (k, rest1) =>
        match rest1.dropWhile jsonWs with
        | ':' :: rest2 =>
          match parseVal fuel rest2 with
          | some (v, rest3) =>
            match rest3.dropWhile jsonWs with
            | ',' :: rest4 =>
              match parseFields fuel (rest4.dropWhile jsonWs) with
              | some (fs, rest5) => some ((String.mk k, v) :: fs, rest5)
              | none => none
            | '\x7d' :: rest4 => some ([(String.mk k, v)], rest4)
            | _ => none
          | none => none
        | _ => none
      | none => none
    | _ => none

/-- Parse the items of a JSON array after the opening bracket. -/
def parseItems : Nat → List Char → Option (List JsonVal × List Char)
  | 0, _ => none
  | fuel + 1, cs =>
    match parseVal fuel cs with
    | some (v, rest) =>
      match rest.dropWhile jsonWs with
      | ',' :: rest2 =>
        match parseItems fuel (rest2.dropWhile jsonWs) with
        | some (xs, rest3) => some (v :: xs, rest3)
        | none => none
      | ']' :: rest2 => some ([v], rest2)
      | _ => none
    | none => none
end

/-- Model of Python `json.loads`: parse the whole string, `none` models the
`json.JSONDecodeError` exception. -/
def json_loads (s : String) : Option JsonVal :=
  match parseVal (2 * s.data.length + 2) s.data with
  | some (v, rest) => if rest.dropWhile jsonWs = [] then some v else none
  | none => none

/-! ## Event broker (`app.py`, class `EventBroker`) -/

/-- Model of a Python `queue.Queue`: FIFO contents plus the `maxsize`
bound; `maxsize = 0` means unbounded, as in Python. -/
structure PyQueue where
  maxsize : Nat
  items : List String
deriving DecidableEq

/-- A queue is full exactly when `put_nowait` would raise `queue.Full`:
positive `maxsize` and at least `maxsize` items held. -/
def PyQueue.isFull (q : PyQueue) : Bool :=
  0 < q.maxsize && q.maxsize ≤ q.items.length

/-- Model of `Queue.put_nowait`; `none` models the `queue.Full` exception. -/
def PyQueue.put_nowait (q : PyQueue) (x : String) : Option PyQueue :=
  if q.isFull then none else some { q with items := q.items ++ [x] }

/-- Model of `EventBroker`: the subscriber list; each subscriber's queue is
tagged with a token standing for the Python object identity of the queue. -/
structure EventBroker where
  clients : List (Nat × PyQueue)
deriving DecidableEq

/-- Model of `EventBroker.register`: appends a fresh unbounded queue
(`queue.Queue()` has `maxsize = 0`); `tok` stands for the identity of the
fresh queue object and is chosen distinct from all live tokens. -/
def EventBroker.register (b : EventBroker) (tok : Nat) : EventBroker × PyQueue :=
  let q : PyQueue := { maxsize := 0, items := [] }
  ({ clients := b.clients ++ [(tok, q)] }, q)

/-- Model of `EventBroker.unregister`: removes the subscriber with the
given queue identity, a no-op when it is absent. -/
def EventBroker.unregister (b : EventBroker) (tok : Nat) : EventBroker :=
  { clients := b.clients.filter (fun c => c.1 ≠ tok) }

/-- The JSON payload `publish` serializes once per call. -/
def brokerPayload (event_type : String) (data : JsonVal) : String :=
  dumps (JsonVal.obj [("type", JsonVal.str event_type), ("data", data)])

/-- Model of `EventBroker.publish`: walk a snapshot of the subscriber
list, attempt a non-blocking enqueue on each subscriber, and remove from
the list each subscriber whose queue raises `queue.Full`. -/
def EventBroker.publish (b : EventBroker) (event_type : String) (data : JsonVal) :
    EventBroker :=
  let payload := brokerPayload event_type data
  { clients := b.clients.filterMap (fun c =>
      match c.2.put_nowait payload with
      | some q => some (c.1, q)
      | none => none) }

/-- A concrete broker used by the C3 witness: subscriber 0 has a bounded
queue (capacity 1) that is full, subscriber 1 an unbounded empty queue. -/
def brokerEx : EventBroker :=
  ⟨[(0, ⟨1, ["old"]⟩), (1, ⟨0, []⟩)]⟩

/-! ## Gateway pool (`nitter_client.py`) -/

/-- Model of the dataclass `InstanceState`; `tokens`, the monotonic
instants and the round-trip time are rationals (exact stand-ins for the
Python floats). -/
structure InstanceState where
  base_url : String
  tokens : ℚ
  last_refill : ℚ
  backoff_until : ℚ
  consecutive_errors : Nat
  last_rtt : Option ℚ
  last_error : Option String
deriving DecidableEq

/-- The configuration `NitterClient.__init__` keeps: the token-bucket
capacity and the effective backoff base (already clamped by
`max(1, backoff_base_seconds)`). -/
structure ClientConfig where
  max_requests_per_minute : ℚ
  backoff_base_seconds : ℚ
deriving DecidableEq

/-- Pool state: the ordered instance list and the round-robin cursor. -/
structure PoolState where
  states : List InstanceState
  rotation_index : Nat
deriving DecidableEq

/-- Model of `url.rstrip("/")`. -/
def rstripSlash (url : String) : String :=
  String.mk ((url.data.reverse.dropWhile (fun c => c = '/')).reverse)

/-- Model of `NitterClient.__init__`: `none` models the `ValueError`
raised on an empty instance list; `t0` is the construction-time monotonic
clock (the `field(default_factory=time.monotonic)` default of
`last_refill`). -/
def clientInit (instances : List String) (max_requests_per_minute : ℚ)
    (backoff_base_seconds : Int) (t0 : ℚ) : Option (ClientConfig × PoolState) :=
  if instances = [] then none
  else some
    ({ max_requests_per_minute := max_requests_per_minute,
       backoff_base_seconds := ((max 1 backoff_base_seconds : Int) : ℚ) },
     { states := instances.map (fun u =>
         { base_url := rstripSlash u, tokens := max_requests_per_minute,
           last_refill := t0, backoff_until := 0, consecutive_errors := 0,
           last_rtt := none, last_error := none }),
       rotation_index := 0 })

/-- Model of `NitterClient._refill_tokens` at monotonic instant `now`. -/
def refill_tokens (cfg : ClientConfig) (now : ℚ) (st : InstanceState) : InstanceState :=
  let elapsed := now - st.last_refill
  let tokens_to_add := cfg.max_requests_per_minute / 60 * elapsed
  if 0 < tokens_to_add then
    { st with tokens := min cfg.max_requests_per_minute (st.tokens + tokens_to_add),
              last_refill := now }
  else st

/-- One visit of the `for _ in range(len(self._states))` loop of
`_acquire_instance`; `fuel` counts the remaining visits.  The refilled
state is written back even when the candidate is skipped, exactly as the
Python code mutates the shared object. -/
def acquireLoop (cfg : ClientConfig) (now : ℚ) : PoolState → Nat → Option Nat × PoolState
  | pool, 0 => (none, pool)
  | pool, fuel + 1 =>
    let i := pool.rotation_index
    match pool.states.get? i with
    | none => (none, pool)
    | some st0 =>
      let st := refill_tokens cfg now st0
      let pool1 : PoolState :=
        { states := pool.states.set i st,
          rotation_index := (i + 1) % pool.states.length }
      if now < st.backoff_until then acquireLoop cfg now pool1 fuel
      else if st.tokens < 1 then acquireLoop cfg now pool1 fuel
      else (some i, { pool1 with states := pool1.states.set i { st with tokens := st.tokens - 1 } })

/-- Model of `NitterClient._acquire_instance`: returns the index of the
acquired instance (`none` models "no instance available") and the updated
pool. -/
def acquire_instance (cfg : ClientConfig) (now : ℚ) (pool : PoolState) :
    Option Nat × PoolState :=
  acquireLoop cfg now pool pool.states.length

/-- Model of `NitterClient._release_instance_on_error` on one instance
state.  `status_code = some 0` hits the falsy branch of
`f"HTTP {status_code}" if status_code else "Request-Fehler"`, exactly as
in Python. -/
def release_on_error (cfg : ClientConfig) (now : ℚ) (status_code : Option Nat)
    (st : InstanceState) : InstanceState :=
  let errors := st.consecutive_errors + 1
  let penalty : ℚ := min 600 (cfg.backoff_base_seconds * 2 ^ (errors - 1))
  { st with consecutive_errors := errors,
            backoff_until := now + penalty,
            last_error := some (match status_code with
              | some c => if c ≠ 0 then "HTTP " ++ toString c else "Request-Fehler"
              | none => "Request-Fehler") }

/-- Pool-level release on error, addressing the instance by index. -/
def release_instance_on_error (cfg : ClientConfig) (now : ℚ) (status_code : Option Nat)
    (i : Nat) (pool : PoolState) : PoolState :=
  match pool.states.get? i with
  | none => pool
  | some st => { pool with states := pool.states.set i (release_on_error cfg now status_code st) }

/-- Model of `NitterClient._release_instance_on_success` on one state. -/
def release_on_success (rtt : ℚ) (st : InstanceState) : InstanceState :=
  { st with consecutive_errors := 0, backoff_until := 0,
            last_error := none, last_rtt := some rtt }

/-- Pool-level release on success, addressing the instance by index. -/
def release_instance_on_success (rtt : ℚ) (i : Nat) (pool : PoolState) : PoolState :=
  match pool.states.get? i with
  | none => pool
  | some st => { pool with states := pool.states.set i (release_on_success rtt st) }

/-! ### C2: backoff after K consecutive failures -/

/-- A run of consecutive release-on-failure calls on one instance state;
each list element carries the monotonic instant of the call and the
optional HTTP status passed. -/
def applyErrors (cfg : ClientConfig) : InstanceState → List (ℚ × Option Nat) → InstanceState
  | st, [] => st
  | st, s :: rest => applyErrors cfg (release_on_error cfg s.1 s.2 st) rest

/-- Concrete pieces for the C2 witness. -/
def cfgEx : ClientConfig :=
  { max_requests_per_minute := 1, backoff_base_seconds := 2 }

/-- Pool produced by `clientInit ["https://a"] 1 2 0`. -/
def poolEx : PoolState :=
  { states := [{ base_url := "https://a", tokens := 1, last_refill := 0, backoff_until := 0,
                 consecutive_errors := 0, last_rtt := none, last_error := none }],
    rotation_index := 0 }

/-- The single instance state of `poolEx`. -/
def stEx : InstanceState :=
  { base_url := "https://a", tokens := 1, last_refill := 0, backoff_until := 0,
    consecutive_errors := 0, last_rtt := none, last_error := none }

/-! ### C4: the two-instance rotation scenario S1 -/

/-- The base URL of the instance returned by an acquisition, if any. -/
def acquiredUrl (pool : PoolState) (r : Option Nat) : Option String :=
  match r with
  | none => none
  | some i => (pool.states.get? i).map (fun s => s.base_url)

/-- Config of scenario S1 (`max_requests_per_instance_per_minute = 2`). -/
def s1cfg : ClientConfig :=
  { max_requests_per_minute := 2, backoff_base_seconds := 1 }

/-- Startup pool of scenario S1: both instances hold 2 tokens. -/
def s1pool0 : PoolState :=
  { states := [{ base_url := "https://a", tokens := 2, last_refill := 0, backoff_until := 0,
                 consecutive_errors := 0, last_rtt := none, last_error := none },
               { base_url := "https://b", tokens := 2, last_refill := 0, backoff_until := 0,
                 consecutive_errors := 0, last_rtt := none, last_error := none }],
    rotation_index := 0 }

/-- Successive acquisitions of scenario S1, all at monotonic instant 0
(same minute, no token has dripped back). -/
def s1acq1 : Option Nat × PoolState := acquire_instance s1cfg 0 s1pool0

/-- Second S1 acquisition. -/
def s1acq2 : Option Nat × PoolState := acquire_instance s1cfg 0 s1acq1.2

/-- Third S1 acquisition. -/
def s1acq3 : Option Nat × PoolState := acquire_instance s1cfg 0 s1acq2.2

/-- Fourth S1 acquisition. -/
def s1acq4 : Option Nat × PoolState := acquire_instance s1cfg 0 s1acq3.2

/-- Fifth S1 acquisition. -/
def s1acq5 : Option Nat × PoolState := acquire_instance s1cfg 0 s1acq4.2

/-! ### C8: pool invariant -/

/-- The externally driven Gateway Pool operations. -/
inductive PoolOp where
  | refillOp (i : Nat) (now : ℚ)
  | acquireOp (now : ℚ)
  | releaseErrorOp (i : Nat) (now : ℚ) (status : Option Nat)
  | releaseSuccessOp (i : Nat) (rtt : ℚ)
deriving DecidableEq

/-- Interpretation of one pool operation. -/
def applyOp (cfg : ClientConfig) (pool : PoolState) : PoolOp → PoolState
  | .refillOp i now =>
    match pool.states.get? i with
    | none => pool
    | some st => { pool with states := pool.states.set i (refill_tokens cfg now st) }
  | .acquireOp now => (acquire_instance cfg now pool).2
  | .releaseErrorOp i now status => release_instance_on_error cfg now status i pool
  | .releaseSuccessOp i rtt => release_instance_on_success rtt i pool

/-- Side condition on an operation: release-on-error happens at a
nonnegative monotonic instant (`time.monotonic()` is nonnegative). -/
def PoolOp.timeOk : PoolOp → Prop
  | .releaseErrorOp _ now _ => 0 ≤ now
  | _ => True

instance : DecidablePred PoolOp.timeOk := by
  intro op
  cases op <;> simp [PoolOp.timeOk] <;> infer_instance

/-- C8's invariant on one instance state. -/
def InstInv (cfg : ClientConfig) (st : InstanceState) : Prop :=
  0 ≤ st.tokens ∧ st.tokens ≤ cfg.max_requests_per_minute ∧ 0 ≤ st.backoff_until

/-- C8's invariant on the whole pool. -/
def PoolInv (cfg : ClientConfig) (pool : PoolState) : Prop :=
  ∀ st ∈ pool.states, InstInv cfg st

/-! ## Feed parser (`nitter_client.py`, `_parse_rss` / `_parse_html`) -/

/-- A parsed entry dict as built by `_parse_rss` / `_parse_html`;
`published` is the publication instant carried by the feed (`none` models
an absent or empty `published` string, cf. the timestamp convention in
the header). -/
structure Entry where
  id : String
  title : String
  summary : String
  link : String
  published : Option Nat
  raw : JsonVal

/-- Python `\s` on the ASCII range (all inputs of interest are ASCII). -/
def pyIsSpace (c : Char) : Bool :=
  c = ' ' || c = '\t' || c = '\n' || c = '\r' || c = Char.ofNat 11 || c = Char.ofNat 12

/-- Model of `re.sub(r"\s+", " ", s)`: every maximal whitespace run
becomes a single space (the flag records whether the previous character
belonged to a whitespace run). -/
def normWsAux : List Char → Bool → List Char
  | [], _ => []
  | c :: rest, prevWs =>
    if pyIsSpace c then
      if prevWs then normWsAux rest true else ' ' :: normWsAux rest true
    else c :: normWsAux rest false

/-- Whitespace normalization `re.sub(r"\s+", " ", s)` on a character list. -/
def normWs (cs : List Char) : List Char :=
  normWsAux cs false

/-- The eight characters of the literal part of `r"/status/(\d+)"`. -/
def statusPat : List Char :=
  ['/', 's', 't', 'a', 't', 'u', 's', '/']

/-- The scanner behind `re.compile(r"/status/(\d+)").finditer(html)`:
left to right and non-overlapping, each match is reported as its start
position together with the maximal (nonempty) digit run after
`/status/`; scanning resumes at the end of the match.  `fuel` bounds the
number of visited positions; every recursive call consumes at least one
character, so `fuel = cs.length` (see `findMatches`) never runs out. -/
def findMatchesAux : Nat → List Char → Nat → List (Nat × List Char)
  | 0, _, _ => []
  | _ + 1, [], _ => []
  | fuel + 1, c :: rest, pos =>
    if statusPat.isPrefixOf (c :: rest)
        && !(((c :: rest).drop 8).takeWhile Char.isDigit).isEmpty then
      (pos, ((c :: rest).drop 8).takeWhile Char.isDigit)
        :: findMatchesAux fuel
            (((c :: rest).drop 8).drop (((c :: rest).drop 8).takeWhile Char.isDigit).length)
            (pos + 8 + (((c :: rest).drop 8).takeWhile Char.isDigit).length)
    else findMatchesAux fuel rest (pos + 1)

/-- All `/status/(\d+)` matches of the body. -/
def findMatches (cs : List Char) (pos : Nat) : List (Nat × List Char) :=
  findMatchesAux cs.length cs pos

/-- Model of `NitterClient._parse_html`.  `start = max(0, m.start() - 200)`
is the truncated subtraction `m.start - 200`, and the excerpt is the
whitespace-normalized slice `html[start : start + 400]`. -/
def parse_html (html : String) : List Entry :=
  (findMatches html.data 0).map (fun m =>
    let excerpt := String.mk (normWs ((html.data.drop (m.1 - 200)).take 400))
    { id := String.mk m.2, title := "Tweet", summary := excerpt,
      link := String.mk m.2, published := none,
      raw := JsonVal.obj [("excerpt", JsonVal.str excerpt)] })

/-- A feedparser entry as far as `_parse_rss` reads it: each `getattr`
field (`none` models an absent attribute) plus `raw`, the structured copy
of the whole entry stored under the `"raw"` key. -/
structure FeedEntry where
  id : Option String
  guid : Option String
  title : Option String
  summary : Option String
  link : Option String
  published : Option Nat
  raw : JsonVal

/-- A feedparser result: the bozo flag and the entry list. -/
structure Feed where
  bozo : Bool
  entries : List FeedEntry

/-- Model of `getattr(entry, name, "")` for the string fields. -/
def getattrD (v : Option String) : String :=
  v.getD ""

/-- Model of `getattr(entry, "id", None) or getattr(entry, "guid", None) or ""`:
the first truthy (present and nonempty) of the two attributes, else a
falsy value, which `if not tweet_id: continue` then filters out. -/
def firstTruthy (a b : Option String) : String :=
  match a with
  | some s => if s = "" then b.getD "" else s
  | none => b.getD ""

/-- Model of `NitterClient._parse_rss`. -/
def parse_rss (feed : Feed) : List Entry :=
  if feed.bozo then []
  else feed.entries.filterMap (fun e =>
    let tweet_id := firstTruthy e.id e.guid
    if tweet_id = "" then none
    else some { id := tweet_id, title := getattrD e.title, summary := getattrD e.summary,
                link := getattrD e.link, published := e.published, raw := e.raw })

/-! ## Store (`storage.py`) -/

/-- One row of the `tweets` table.  `created_at` and `fetched_at` hold the
instants that SQLite's `datetime()` reads back from the stored text (cf.
the timestamp convention in the header); `raw` is the stored JSON text;
`instanceUrl` is the `instance` column (`instance` is reserved in Lean). -/
structure Row where
  id : String
  target : String
  content : String
  created_at : Nat
  raw : String
  fetched_at : Nat
  instanceUrl : String
deriving DecidableEq

/-- Model of `Storage.upsert_tweet`: `json.dumps` the raw payload, then
`INSERT OR IGNORE` keyed on the primary key `id`; returns `true` iff a
row was inserted (`cursor.rowcount > 0`). -/
def upsert_tweet (s : List Row) (tweet_id target content : String) (created_at : Nat)
    (raw : JsonVal) (fetched_at : Nat) (instanceUrl : String) : Bool × List Row :=
  if s.any (fun r => r.id == tweet_id) then (false, s)
  else (true, s ++ [{ id := tweet_id, target := target, content := content,
                      created_at := created_at, raw := dumps raw,
                      fetched_at := fetched_at, instanceUrl := instanceUrl }])

/-- The argument bundle of one `upsert_tweet` call. -/
structure UpsertArgs where
  tweet_id : String
  target : String
  content : String
  created_at : Nat
  raw : JsonVal
  fetched_at : Nat
  instanceUrl : String

/-- One `upsert_tweet` call from an argument bundle. -/
def upsertCall (s : List Row) (a : UpsertArgs) : Bool × List Row :=
  upsert_tweet s a.tweet_id a.target a.content a.created_at a.raw a.fetched_at a.instanceUrl

/-- The store after a sequence of `upsert_tweet` calls. -/
def upsertRun (s : List Row) : List UpsertArgs → List Row
  | [] => s
  | a :: rest => upsertRun (upsertCall s a).2 rest

/-- First call of the C1 witness sequence (id `"t1"`). -/
def callA : UpsertArgs :=
  ⟨"t1", "user:alice", "c1", 1, JsonVal.null, 1, "https://a"⟩

/-- Second call of the C1 witness sequence: the same id `"t1"` again. -/
def callB : UpsertArgs :=
  ⟨"t1", "user:alice", "c2", 2, JsonVal.null, 2, "https://a"⟩

/-! ### Prune (`storage.py`, `prune_old_entries`) -/

/-- Descending order on rows by `created_at` (the model of `ORDER BY
datetime(created_at) DESC`); ties may be resolved either way, as the
claims tolerate. -/
def createdDesc (a b : Row) : Prop :=
  b.created_at ≤ a.created_at

instance : DecidableRel createdDesc :=
  fun a b => Nat.decLe b.created_at a.created_at

instance : IsTotal Row createdDesc :=
  ⟨fun a b => le_total b.created_at a.created_at⟩

instance : IsTrans Row createdDesc :=
  ⟨fun _ _ _ hab hbc => le_trans hbc hab⟩

/-- Model of `SELECT id FROM tweets WHERE target = ? ORDER BY datetime(created_at)
DESC LIMIT ?` over the table `s`. -/
def topIds (n : Nat) (t : String) (s : List Row) : List String :=
  ((List.insertionSort createdDesc (s.filter (fun r => r.target == t))).take n).map Row.id

/-- One per-target `DELETE` of `prune_old_entries`: remove the rows of
target `t` whose id is not among the `n` most recent ids of `t`. -/
def pruneStep (n : Nat) (s : List Row) (t : String) : List Row :=
  s.filter (fun r => !(r.target == t && !((topIds n t s).contains r.id)))

/-- Model of `Storage.prune_old_entries`: iterate the per-target delete
over the distinct targets present in the table. -/
def prune_old_entries (n : Nat) (s : List Row) : List Row :=
  ((s.map Row.target).dedup).foldl (pruneStep n) s

/-- The three stored posts of scenario S5, created at instants 1 < 2 < 3. -/
def s5store : List Row :=
  [⟨"p1", "user:alice", "a", 1, "\x7b\x7d", 1, "i"⟩,
   ⟨"p2", "user:alice", "b", 2, "\x7b\x7d", 2, "i"⟩,
   ⟨"p3", "user:alice", "c", 3, "\x7b\x7d", 3, "i"⟩]

/-! ### Export (`storage.py`, `export_tweets`) -/

/-- One emitted JSONL record; the JSON text of the emitted line is
determined by (and determines) these fields, so the model keeps the
structured form. -/
structure ExportRec where
  id : String
  target : String
  content : String
  created_at : Nat
  raw : JsonVal
  fetched_at : Nat
  instanceUrl : String

/-- The raw-parsing step of one export line: `json.loads(row["raw"] or
"{}")` — the `or` substitutes `"{}"` only for an empty (falsy) stored
text. -/
def exportRaw (r : Row) : Option JsonVal :=
  json_loads (if r.raw = "" then "\x7b\x7d" else r.raw)

/-- The generator body of `export_tweets` over the already ordered rows;
`Except.error` models the `json.JSONDecodeError` the generator raises on
a non-empty unparsable `raw` text. -/
def exportLoop : List Row → Except String (List ExportRec)
  | [] => Except.ok []
  | r :: rest =>
    match exportRaw r with
    | some v =>
      match exportLoop rest with
      | Except.ok l =>
        Except.ok ({ id := r.id, target := r.target, content := r.content,
                     created_at := r.created_at, raw := v,
                     fetched_at := r.fetched_at, instanceUrl := r.instanceUrl } :: l)
      | Except.error e => Except.error e
    | none => Except.error ("JSONDecodeError: " ++ r.raw)

/-- Model of `Storage.export_tweets`: all rows ordered by
`datetime(created_at) DESC`, one JSON line per row. -/
def export_tweets (s : List Row) : Except String (List ExportRec) :=
  exportLoop (List.insertionSort createdDesc s)

/-- A stored row whose `raw` text is non-empty and not valid JSON. -/
def badRow : Row :=
  ⟨"p1", "user:alice", "a", 1, "not json", 1, "i"⟩

/-- A store whose rows all have parsable (or empty) `raw` texts. -/
def goodStore : List Row :=
  [⟨"p1", "user:alice", "a", 1, "", 1, "i"⟩,
   ⟨"p2", "user:alice", "b", 2, "\x7b\"k\": 1\x7d", 2, "i"⟩]

/-! ## Fetch pipeline (`nitter_client.py` `fetch_target`, `app.py`) -/

/-- The outcome of `NitterClient._fetch` (the `requests.get` call),
supplied as an oracle: the raised exception's message, or the response —
status code, `Content-Type` header (defaulted to `""`), body text, and
the feedparser result for the body. -/
inductive HttpOutcome where
  | err (msg : String)
  | ok (status_code : Nat) (contentType : String) (text : String) (feed : Feed)

/-- Substring containment on character lists (Python's `in`). -/
def containsSub (pat : List Char) : List Char → Bool
  | [] => pat.isEmpty
  | c :: rest => pat.isPrefixOf (c :: rest) || containsSub pat rest

/-- The result triple of `fetch_target`: `(entries, instance, error)`. -/
structure FetchResult where
  entries : List Entry
  instanceUrl : Option String
  error : Option String

/-- Model of `NitterClient.fetch_target`.  `now1` is the monotonic clock
at acquisition/request start, `now2` at response time
(`rtt = now2 - now1`); the HTTP outcome of the constructed URL is
supplied by the `http` oracle. -/
def fetch_target (cfg : ClientConfig) (pool : PoolState) (now1 now2 : ℚ)
    (http : HttpOutcome) : FetchResult × PoolState :=
  match acquire_instance cfg now1 pool with
  | (none, pool1) =>
    (⟨[], none, some "Keine verfügbare Instanz (Rate-Limit oder Backoff)."⟩, pool1)
  | (some i, pool1) =>
    let base := ((pool1.states.get? i).map (fun st => st.base_url)).getD ""
    match http with
    | HttpOutcome.err msg =>
      (⟨[], some base, some msg⟩, release_instance_on_error cfg now2 none i pool1)
    | HttpOutcome.ok status ct text feed =>
      if 400 ≤ status then
        (⟨[], some base, some ("HTTP " ++ toString status)⟩,
         release_instance_on_error cfg now2 (some status) i pool1)
      else
        let entries0 := parse_rss feed
        let entries := if entries0.isEmpty && !(containsSub "xml".data ct.data) then
            parse_html text
          else entries0
        (⟨entries, some base, none⟩, release_instance_on_success (now2 - now1) i pool1)

/-- A row of the `targets` table; `last_fetched_at` holds the wall-clock
instant of the last fetch (cf. the timestamp convention). -/
structure TargetRow where
  id : Nat
  targetType : String
  value : String
  poll_interval_seconds : Nat
  last_fetched_id : Option String
  last_fetched_at : Option Nat
deriving DecidableEq

/-- Model of `Storage.update_target_fetch_state`. -/
def update_target_fetch_state (targets : List TargetRow) (target_id : Nat)
    (last_fetched_id : Option String) (last_fetched_at : Option Nat) : List TargetRow :=
  targets.map (fun tr =>
    if tr.id == target_id then
      { tr with last_fetched_id := last_fetched_id, last_fetched_at := last_fetched_at }
    else tr)

/-- Model of `str(entry.get("id") or entry.get("link"))`: the entry's id when
truthy, else its link (both keys are always present as strings in the
output of the parsers). -/
def entryTweetId (e : Entry) : String :=
  if e.id = "" then e.link else e.id

/-- Model of `entry.get("title") or entry.get("summary") or ""`. -/
def entryContent (e : Entry) : String :=
  if e.title = "" then e.summary else e.title

/-- One iteration of the storing loop of `_store_entries`; `nowWall` is
the capture instant used both for the `created_at` default and for
`fetched_at`. -/
def storeEntry (tr : TargetRow) (instanceUrl : Option String) (nowWall : Nat)
    (acc : List Row × Nat) (e : Entry) : List Row × Nat :=
  let tweet_id := entryTweetId e
  if tweet_id = "" then acc
  else
    let res := upsert_tweet acc.1 tweet_id (tr.targetType ++ ":" ++ tr.value)
      (entryContent e) (e.published.getD nowWall) e.raw nowWall (instanceUrl.getD "")
    (res.2, acc.2 + (if res.1 then 1 else 0))

/-- Model of `_store_entries` (`app.py`): upsert every entry counting the
new rows, then prune when `keep_only_last_n_per_target` is configured and
truthy (Python's `if keep_limit:` skips a configured `0`). -/
def store_entries (keepLimit : Option Nat) (tr : TargetRow) (instanceUrl : Option String)
    (nowWall : Nat) (s : List Row) (entries : List Entry) : List Row × Nat :=
  let res := entries.foldl (storeEntry tr instanceUrl nowWall) (s, 0)
  match keepLimit with
  | some k => if k = 0 then res else (prune_old_entries k res.1, res.2)
  | none => res

/-- The summary dict `_fetch_target` returns. -/
structure FetchSummary where
  target : String
  newCount : Nat
  error : Option String
  instanceUrl : Option String
deriving DecidableEq

/-- Model of `_fetch_target` (`app.py`): run the client fetch; on error
return early with `new = 0` and no state change; on success store the
entries and record the first entry's id (or `None`) and the current
instant in the target row. -/
def app_fetch_target (cfg : ClientConfig) (keepLimit : Option Nat)
    (s : List Row) (targets : List TargetRow) (tr : TargetRow) (pool : PoolState)
    (now1 now2 : ℚ) (nowWall : Nat) (http : HttpOutcome) :
    List Row × List TargetRow × PoolState × FetchSummary :=
  let res := fetch_target cfg pool now1 now2 http
  match res.1.error with
  | some e => (s, targets, res.2, ⟨tr.value, 0, some e, res.1.instanceUrl⟩)
  | none =>
    let stored := store_entries keepLimit tr res.1.instanceUrl nowWall s res.1.entries
    let targets2 := update_target_fetch_state targets tr.id
      ((res.1.entries.head?).map (fun e => e.id)) (some nowWall)
    (stored.1, targets2, res.2, ⟨tr.value, stored.2, none, res.1.instanceUrl⟩)

/-- Model of `int(target["poll_interval_seconds"] or 300)`: a zero (or NULL)
interval falls back to 300. -/
def effInterval (tr : TargetRow) : Nat :=
  if tr.poll_interval_seconds = 0 then 300 else tr.poll_interval_seconds

/-- The due test of one scheduler cycle (`Scheduler.run`): due when never
fetched, or when the interval has elapsed since `last_fetched_at`. -/
def isDue (now : Nat) (tr : TargetRow) : Bool :=
  match tr.last_fetched_at with
  | none => true
  | some last => decide (effInterval tr ≤ now - last)

/-- Target row used by the C5 and C10 witnesses. -/
def trEx : TargetRow :=
  ⟨1, "user", "alice", 60, none, none⟩

/-! ### C6: the HTML fallback window -/

/-- Scenario S4's body: `text/html` with one `/status/<digits>` link. -/
def s4body : String :=
  "<html><a href=\"/user/status/12345\">tweet</a></html>"

/-- Scenario S4's response: HTML content type, feedparser reports a
format error (`bozo`) on the non-feed body. -/
def s4http : HttpOutcome :=
  HttpOutcome.ok 200 "text/html" s4body ⟨true, []⟩

/-- Following the CLAIM's words (not the code): the window made of the
200 characters preceding and the 200 characters following the match,
excluding the match text itself. -/
def claimWindowPieces (html : List Char) (startPos matchLen : Nat) : List Char :=
  ((html.take startPos).drop (startPos - 200))
    ++ ((html.drop (startPos + matchLen)).take 200)

/-- Following the CLAIM's words (not the code), second reading: the
window from 200 characters before the match to 200 characters after its
end, including the match text. -/
def claimWindowAround (html : List Char) (startPos matchLen : Nat) : List Char :=
  (html.take (startPos + matchLen + 200)).drop (startPos - 200)

/-- Body separating the code's window from the claim's: `/status/1`
followed by 201 `a`s (210 characters in total). -/
def c6body : String :=
  "/status/1" ++ String.mk (List.replicate 201 'a')

/-- The single entry the fallback synthesizes from scenario S4's body
(the whole body fits inside the 400-character window, and its only
whitespace run is already a single space, so the summary is the body
itself). -/
def s4entry : Entry :=
  { id := "12345", title := "Tweet", summary := s4body, link := "12345",
    published := none, raw := JsonVal.obj [("excerpt", JsonVal.str s4body)] }


/-! ## Theorems settling the claims, with their supporting lemmas and witnesses -/

example : json_loads "\x7b\x7d" = some (JsonVal.obj []) := rfl
example : json_loads "not json" = none := rfl
example : json_loads "\x7b\"a\": [1, null]\x7d"
    = some (JsonVal.obj [("a", JsonVal.arr [JsonVal.num 1, JsonVal.null])]) := rfl

theorem filterMap_put_eq_filter_map (l : List (Nat × PyQueue)) (payload : String) :
    (l.filterMap (fun c =>
        match c.2.put_nowait payload with
        | some q => some (c.1, q)
        | none => none))
      = (l.filter (fun c => ¬ c.2.isFull)).map
          (fun c => (c.1, { c.2 with items := c.2.items ++ [payload] })) := by
  induction l with
  | nil => rfl
  | cons hd tl ih =>
    by_cases hfull : hd.2.isFull
    · have hput : hd.2.put_nowait payload = none := by
        simp [PyQueue.put_nowait, hfull]
      simp only [List.filterMap_cons, hput, List.filter_cons]
      simp [hfull, ih]
    · have hput : hd.2.put_nowait payload
          = some { hd.2 with items := hd.2.items ++ [payload] } := by
        simp [PyQueue.put_nowait, hfull]
      simp only [List.filterMap_cons, hput, List.filter_cons]
      simp [hfull, ih]

theorem mem_eq_of_nodup_fst {l : List (Nat × PyQueue)} (h : (l.map Prod.fst).Nodup)
    {x y : Nat × PyQueue} (hx : x ∈ l) (hy : y ∈ l) (hfst : x.1 = y.1) : x = y := by
  induction l with
  | nil => cases hx
  | cons hd tl ih =>
    rw [List.map_cons, List.nodup_cons] at h
    rcases List.mem_cons.mp hx with rfl | hx' <;>
      rcases List.mem_cons.mp hy with rfl | hy'
    · rfl
    · exact absurd (hfst ▸ List.mem_map_of_mem Prod.fst hy') h.1
    · exact absurd (hfst ▸ List.mem_map_of_mem Prod.fst hx') h.1
    · exact ih h.2 hx' hy'

/-- C3: a `publish` call removes exactly the subscribers whose queue is
full at that moment (they receive nothing and are gone from the list), and
delivers the serialized event to the tail of every remaining subscriber's
queue.  `publish` is a total function of the broker state, so it never
blocks the publisher. -/
theorem publish_drops_full_delivers_rest (b : EventBroker) (ty : String) (data : JsonVal)
    (hids : (b.clients.map Prod.fst).Nodup) :
    (EventBroker.publish b ty data).clients
        = (b.clients.filter (fun c => ¬ c.2.isFull)).map
            (fun c => (c.1, { c.2 with items := c.2.items ++ [brokerPayload ty data] })) ∧
    ∀ c ∈ b.clients, c.2.isFull →
      ∀ q, (c.1, q) ∉ (EventBroker.publish b ty data).clients := by
  constructor
  · exact filterMap_put_eq_filter_map b.clients (brokerPayload ty data)
  · intro c hc hfull q hmem
    rw [EventBroker.publish, filterMap_put_eq_filter_map] at hmem
    rcases List.mem_map.mp hmem with ⟨c', hc', heq⟩
    have hc'mem : c' ∈ b.clients := List.mem_filter.mp hc' |>.1
    have hc'nf : ¬ c'.2.isFull := by
      have := List.mem_filter.mp hc' |>.2
      simpa using this
    have hfst : c'.1 = c.1 := by
      have h1 := congrArg Prod.fst heq
      simpa using h1
    have : c' = c := mem_eq_of_nodup_fst hids hc'mem hc hfst
    exact hc'nf (this ▸ hfull)

/-- Witness for C3 at the concrete broker `brokerEx`. -/
theorem publish_drops_full_delivers_rest_witness :
    (brokerEx.clients.map Prod.fst).Nodup ∧
      ((EventBroker.publish brokerEx "tick" JsonVal.null).clients
          = (brokerEx.clients.filter (fun c => ¬ c.2.isFull)).map
              (fun c => (c.1, { c.2 with items := c.2.items ++ [brokerPayload "tick" JsonVal.null] })) ∧
        ∀ c ∈ brokerEx.clients, c.2.isFull →
          ∀ q, (c.1, q) ∉ (EventBroker.publish brokerEx "tick" JsonVal.null).clients) :=
  ⟨by decide, publish_drops_full_delivers_rest brokerEx "tick" JsonVal.null (by decide)⟩

theorem applyErrors_append (cfg : ClientConfig) (st : InstanceState)
    (l1 l2 : List (ℚ × Option Nat)) :
    applyErrors cfg st (l1 ++ l2) = applyErrors cfg (applyErrors cfg st l1) l2 := by
  induction l1 generalizing st with
  | nil => rfl
  | cons hd tl ih => simpa [applyErrors] using ih (release_on_error cfg hd.1 hd.2 st)

theorem applyErrors_consecutive (cfg : ClientConfig) (steps : List (ℚ × Option Nat))
    (st : InstanceState) :
    (applyErrors cfg st steps).consecutive_errors = st.consecutive_errors + steps.length := by
  induction steps generalizing st with
  | nil => rfl
  | cons hd tl ih =>
    rw [applyErrors, ih]
    simp [release_on_error]
    omega

/-- C2: after `K = steps.length + 1` consecutive release-on-failure calls
on an instance whose error counter was zero, `backoff_until` minus the
instant of the last call equals `min 600 (base * 2 ^ (K - 1))` for the
configured base `b ≥ 1`, the error counter equals `K`, and `last_error`
records `HTTP <code>` when a (positive) status code was passed to the last
call and the generic marker `Request-Fehler` otherwise. -/
theorem backoff_after_k_failures (b : Int) (hb : 1 ≤ b) (insts : List String) (mrpm : ℚ)
    (t0 : ℚ) (cfg : ClientConfig) (pool : PoolState)
    (hinit : clientInit insts mrpm b t0 = some (cfg, pool))
    (st : InstanceState) (h0 : st.consecutive_errors = 0)
    (steps : List (ℚ × Option Nat)) (lastNow : ℚ) (lastCode : Option Nat)
    (hcode : ∀ c, lastCode = some c → 0 < c) :
    (applyErrors cfg st (steps ++ [(lastNow, lastCode)])).backoff_until - lastNow
        = min 600 ((b : ℚ) * 2 ^ steps.length) ∧
    (applyErrors cfg st (steps ++ [(lastNow, lastCode)])).consecutive_errors
        = steps.length + 1 ∧
    (applyErrors cfg st (steps ++ [(lastNow, lastCode)])).last_error
        = some (match lastCode with
            | some c => "HTTP " ++ toString c
            | none => "Request-Fehler") := by
  have hcfg : cfg.backoff_base_seconds = (b : ℚ) := by
    by_cases hi : insts = []
    · simp [clientInit, hi] at hinit
    · simp [clientInit, hi] at hinit
      have hc := congrArg ClientConfig.backoff_base_seconds hinit.1
      rw [← hc]
      have hb' : (1 : ℚ) ≤ (b : ℚ) := by exact_mod_cast hb
      show (1 : ℚ) ⊔ ((b : Int) : ℚ) = (b : ℚ)
      exact sup_eq_right.mpr hb'
  have happ : applyErrors cfg st (steps ++ [(lastNow, lastCode)])
      = release_on_error cfg lastNow lastCode (applyErrors cfg st steps) := by
    rw [applyErrors_append]
    rfl
  have hmid : (applyErrors cfg st steps).consecutive_errors = steps.length := by
    rw [applyErrors_consecutive, h0, Nat.zero_add]
  refine ⟨?_, ?_, ?_⟩
  · rw [happ]
    simp only [release_on_error, hmid, hcfg]
    have hidx : steps.length + 1 - 1 = steps.length := by omega
    rw [hidx]
    ring
  · rw [happ]
    simp only [release_on_error, hmid]
  · rw [happ]
    simp only [release_on_error]
    cases lastCode with
    | none => rfl
    | some c =>
      have hc : 0 < c := hcode c rfl
      have : c ≠ 0 := Nat.pos_iff_ne_zero.mp hc
      simp [this]

/-- Witness for C2: two consecutive failures with base 2; the second, at
instant 5 with HTTP 503, leaves `backoff_until - 5 = min 600 (2 * 2) = 4`. -/
theorem backoff_after_k_failures_witness :
    (1 : Int) ≤ 2 ∧
    clientInit ["https://a"] 1 2 0 = some (cfgEx, poolEx) ∧
    stEx.consecutive_errors = 0 ∧
    (∀ c, (some 503 : Option Nat) = some c → 0 < c) ∧
    ((applyErrors cfgEx stEx ([(0, none)] ++ [(5, some 503)])).backoff_until - 5
        = min 600 (((2 : Int) : ℚ) * 2 ^ [((0 : ℚ), (none : Option Nat))].length) ∧
      (applyErrors cfgEx stEx ([(0, none)] ++ [(5, some 503)])).consecutive_errors
        = [((0 : ℚ), (none : Option Nat))].length + 1 ∧
      (applyErrors cfgEx stEx ([(0, none)] ++ [(5, some 503)])).last_error
        = some (match (some 503 : Option Nat) with
            | some c => "HTTP " ++ toString c
            | none => "Request-Fehler")) :=
  ⟨by decide, by decide, by decide, by simp,
    backoff_after_k_failures 2 (by decide) ["https://a"] 1 0 cfgEx poolEx (by decide)
      stEx (by decide) [(0, none)] 5 (some 503) (by simp)⟩

/-- C4 counterexample: with instances `["https://a", "https://b"]` and
`max_requests_per_instance_per_minute = 2`, the third acquisition from
startup state within the same minute does NOT fail: each instance starts
with 2 tokens, so the third acquisition succeeds and returns `https://a`
again. -/
theorem s1_third_acquisition_succeeds :
    clientInit ["https://a", "https://b"] 2 1 0 = some (s1cfg, s1pool0) ∧
    acquiredUrl s1acq1.2 s1acq1.1 = some "https://a" ∧
    acquiredUrl s1acq2.2 s1acq2.1 = some "https://b" ∧
    acquiredUrl s1acq3.2 s1acq3.1 = some "https://a" ∧
    s1acq3.1 ≠ none := by
  have h3 : s1acq3.1 = some 0 := by
    norm_num [s1acq1, s1acq2, s1acq3, acquire_instance, acquireLoop, refill_tokens,
      s1cfg, s1pool0]
  refine ⟨by decide, ?_, ?_, ?_, by rw [h3]; simp⟩ <;>
    norm_num [s1acq1, s1acq2, s1acq3, acquire_instance, acquireLoop, refill_tokens,
      s1cfg, s1pool0, acquiredUrl]

/-- C4 amended: from startup state the immediate acquisitions rotate
`https://a`, `https://b`, `https://a`, `https://b` (two tokens per
instance), and the fifth immediate acquisition — once all four tokens are
spent and before any refill — fails with "no instance available". -/
theorem s1_rotation_then_exhaustion :
    acquiredUrl s1acq1.2 s1acq1.1 = some "https://a" ∧
    acquiredUrl s1acq2.2 s1acq2.1 = some "https://b" ∧
    acquiredUrl s1acq3.2 s1acq3.1 = some "https://a" ∧
    acquiredUrl s1acq4.2 s1acq4.1 = some "https://b" ∧
    s1acq5.1 = none := by
  norm_num [s1acq1, s1acq2, s1acq3, s1acq4, s1acq5, acquire_instance, acquireLoop,
    refill_tokens, s1cfg, s1pool0, acquiredUrl]

theorem instInv_refill (cfg : ClientConfig) (hm : 0 ≤ cfg.max_requests_per_minute)
    (now : ℚ) (st : InstanceState) (h : InstInv cfg st) :
    InstInv cfg (refill_tokens cfg now st) := by
  obtain ⟨h1, h2, h3⟩ := h
  unfold refill_tokens InstInv
  by_cases hadd : 0 < cfg.max_requests_per_minute / 60 * (now - st.last_refill)
  · simp only [if_pos hadd]
    refine ⟨le_min hm (by linarith), min_le_left _ _, h3⟩
  · simp only [if_neg hadd]
    exact ⟨h1, h2, h3⟩

theorem instInv_release_error (cfg : ClientConfig) (hb : 0 ≤ cfg.backoff_base_seconds)
    (now : ℚ) (hnow : 0 ≤ now) (code : Option Nat) (st : InstanceState)
    (h : InstInv cfg st) : InstInv cfg (release_on_error cfg now code st) := by
  obtain ⟨h1, h2, _⟩ := h
  refine ⟨h1, h2, ?_⟩
  have hpen : (0 : ℚ) ≤ min 600 (cfg.backoff_base_seconds * 2 ^ (st.consecutive_errors + 1 - 1)) := by
    refine le_min (by norm_num) (mul_nonneg hb (by positivity))
  simpa [release_on_error] using add_nonneg hnow hpen

theorem instInv_release_success (cfg : ClientConfig) (rtt : ℚ) (st : InstanceState)
    (h : InstInv cfg st) : InstInv cfg (release_on_success rtt st) := by
  obtain ⟨h1, h2, _⟩ := h
  exact ⟨h1, h2, le_refl 0⟩

theorem poolInv_set (cfg : ClientConfig) (pool : PoolState) (i : Nat) (st : InstanceState)
    (hpool : PoolInv cfg pool) (hst : InstInv cfg st) :
    ∀ x ∈ pool.states.set i st, InstInv cfg x := by
  intro x hx
  rcases List.mem_or_eq_of_mem_set hx with hmem | rfl
  · exact hpool x hmem
  · exact hst

theorem poolInv_acquireLoop (cfg : ClientConfig) (hm : 0 ≤ cfg.max_requests_per_minute)
    (now : ℚ) (fuel : Nat) (pool : PoolState) (hpool : PoolInv cfg pool) :
    PoolInv cfg (acquireLoop cfg now pool fuel).2 := by
  induction fuel generalizing pool with
  | zero => exact hpool
  | succ k ih =>
    rw [acquireLoop]
    cases hget : pool.states.get? pool.rotation_index with
    | none => exact hpool
    | some st0 =>
      have hst0 : InstInv cfg st0 := hpool st0 (List.get?_mem hget)
      have hst : InstInv cfg (refill_tokens cfg now st0) := instInv_refill cfg hm now st0 hst0
      simp only []
      by_cases hback : now < (refill_tokens cfg now st0).backoff_until
      · simp only [if_pos hback]
        exact ih _ (poolInv_set cfg pool _ _ hpool hst)
      · simp only [if_neg hback]
        by_cases htok : (refill_tokens cfg now st0).tokens < 1
        · simp only [if_pos htok]
          exact ih _ (poolInv_set cfg pool _ _ hpool hst)
        · simp only [if_neg htok]
          intro x hx
          rcases List.mem_or_eq_of_mem_set hx with hmem | rfl
          · exact poolInv_set cfg pool _ _ hpool hst x hmem
          · obtain ⟨g1, g2, g3⟩ := hst
            push_neg at htok
            refine ⟨?_, ?_, ?_⟩
            · show (0 : ℚ) ≤ (refill_tokens cfg now st0).tokens - 1
              linarith
            · show (refill_tokens cfg now st0).tokens - 1 ≤ cfg.max_requests_per_minute
              linarith
            · exact g3

theorem poolInv_applyOp (cfg : ClientConfig) (hm : 0 ≤ cfg.max_requests_per_minute)
    (hb : 0 ≤ cfg.backoff_base_seconds) (pool : PoolState) (op : PoolOp)
    (hop : op.timeOk) (hpool : PoolInv cfg pool) : PoolInv cfg (applyOp cfg pool op) := by
  cases op with
  | refillOp i now =>
    simp only [applyOp]
    cases hget : pool.states.get? i with
    | none => exact hpool
    | some st =>
      exact poolInv_set cfg pool _ _ hpool
        (instInv_refill cfg hm now st (hpool st (List.get?_mem hget)))
  | acquireOp now =>
    simp only [applyOp]
    exact poolInv_acquireLoop cfg hm now _ pool hpool
  | releaseErrorOp i now status =>
    simp only [applyOp, release_instance_on_error]
    cases hget : pool.states.get? i with
    | none => exact hpool
    | some st =>
      exact poolInv_set cfg pool _ _ hpool
        (instInv_release_error cfg hb now hop status st (hpool st (List.get?_mem hget)))
  | releaseSuccessOp i rtt =>
    simp only [applyOp, release_instance_on_success]
    cases hget : pool.states.get? i with
    | none => exact hpool
    | some st =>
      exact poolInv_set cfg pool _ _ hpool
        (instInv_release_success cfg rtt st (hpool st (List.get?_mem hget)))

theorem poolInv_foldl (cfg : ClientConfig) (hm : 0 ≤ cfg.max_requests_per_minute)
    (hb : 0 ≤ cfg.backoff_base_seconds) (ops : List PoolOp)
    (hops : ∀ op ∈ ops, op.timeOk) (pool : PoolState) (hpool : PoolInv cfg pool) :
    PoolInv cfg (ops.foldl (applyOp cfg) pool) := by
  induction ops generalizing pool with
  | nil => exact hpool
  | cons hd tl ih =>
    exact ih (fun op hop => hops op (List.mem_cons_of_mem hd hop)) _
      (poolInv_applyOp cfg hm hb pool hd (hops hd (List.mem_cons_self hd tl)) hpool)

/-- C8: for a pool built by `__init__` from a nonnegative per-minute limit,
after every prefix of any sequence of pool operations (construction,
refill, acquire, release on success, release on failure at nonnegative
monotonic instants) every instance satisfies
`0 ≤ tokens ≤ max_requests_per_instance_per_minute` and `0 ≤ backoff_until`. -/
theorem pool_invariant_all_prefixes (insts : List String) (mrpm : ℚ) (b : Int) (t0 : ℚ)
    (cfg : ClientConfig) (pool0 : PoolState)
    (hinit : clientInit insts mrpm b t0 = some (cfg, pool0))
    (hmrpm : 0 ≤ mrpm) (ops : List PoolOp) (hops : ∀ op ∈ ops, op.timeOk) (k : Nat) :
    PoolInv cfg ((ops.take k).foldl (applyOp cfg) pool0) := by
  by_cases hi : insts = []
  · simp [clientInit, hi] at hinit
  · simp [clientInit, hi] at hinit
    obtain ⟨hc, hp⟩ := hinit
    have hm : 0 ≤ cfg.max_requests_per_minute := by
      rw [← hc]
      exact hmrpm
    have hbase : 0 ≤ cfg.backoff_base_seconds := by
      rw [← hc]
      show (0 : ℚ) ≤ (1 : ℚ) ⊔ ((b : Int) : ℚ)
      exact le_trans zero_le_one le_sup_left
    have hpool0 : PoolInv cfg pool0 := by
      rw [← hp]
      intro st hst
      simp only [List.mem_map] at hst
      obtain ⟨u, _, rfl⟩ := hst
      rw [← hc]
      exact ⟨hmrpm, le_refl _, le_refl 0⟩
    exact poolInv_foldl cfg hm hbase (ops.take k)
      (fun op hop => hops op (List.take_subset k ops hop)) pool0 hpool0

/-- Witness for C8: one instance, one acquisition and one failure release. -/
theorem pool_invariant_all_prefixes_witness :
    clientInit ["https://a"] 1 2 0 = some (cfgEx, poolEx) ∧
    (0 : ℚ) ≤ 1 ∧
    (∀ op ∈ [PoolOp.acquireOp 0, PoolOp.releaseErrorOp 0 1 (some 500)], op.timeOk) ∧
    PoolInv cfgEx (([PoolOp.acquireOp 0, PoolOp.releaseErrorOp 0 1 (some 500)].take 2).foldl
      (applyOp cfgEx) poolEx) :=
  ⟨by decide, by norm_num,
    by decide,
    pool_invariant_all_prefixes ["https://a"] 1 2 0 cfgEx poolEx (by decide) (by norm_num)
      [PoolOp.acquireOp 0, PoolOp.releaseErrorOp 0 1 (some 500)] (by decide) 2⟩

theorem drop_length_takeWhile {α : Type} (p : α → Bool) (l : List α) :
    l.drop (l.takeWhile p).length = l.dropWhile p := by
  induction l with
  | nil => rfl
  | cons hd tl ih =>
    by_cases h : p hd
    · simp [List.takeWhile_cons, List.dropWhile_cons, h, ih]
    · simp [List.takeWhile_cons, List.dropWhile_cons, h]

theorem findMatchesAux_sound (fuel : Nat) :
    ∀ (cs : List Char) (pos : Nat), ∀ m ∈ findMatchesAux fuel cs pos,
      pos ≤ m.1 ∧
      (statusPat ++ m.2) <+: cs.drop (m.1 - pos) ∧
      m.2 ≠ [] ∧ m.2.all Char.isDigit = true ∧
      (∀ d, ((cs.drop (m.1 - pos)).drop (8 + m.2.length)).head? = some d →
        d.isDigit = false) := by
  induction fuel with
  | zero =>
    intro cs pos m hm
    simp [findMatchesAux] at hm
  | succ k ih =>
    intro cs pos m hm
    match cs with
    | [] => simp [findMatchesAux] at hm
    | c :: rest =>
      rw [findMatchesAux] at hm
      by_cases hcond : (statusPat.isPrefixOf (c :: rest)
          && !(((c :: rest).drop 8).takeWhile Char.isDigit).isEmpty) = true
      · rw [if_pos hcond] at hm
        rcases List.mem_cons.mp hm with rfl | hm2
        · have hand := Bool.and_eq_true_iff.mp hcond
          have hpre : statusPat.isPrefixOf (c :: rest) = true := hand.1
          have hds : (((c :: rest).drop 8).takeWhile Char.isDigit).isEmpty = false := by
            simpa using hand.2
          have hne : ((c :: rest).drop 8).takeWhile Char.isDigit ≠ [] := by
            intro hnil
            rw [hnil] at hds
            simp at hds
          have hstat : statusPat <+: (c :: rest) := List.isPrefixOf_iff_prefix.mp hpre
          have hlen : statusPat.length = 8 := rfl
          have htake : statusPat = (c :: rest).take 8 := by
            have h := List.prefix_iff_eq_take.mp hstat
            rwa [hlen] at h
          have hsplit : (c :: rest) = statusPat ++ (c :: rest).drop 8 := by
            conv_lhs => rw [← List.take_append_drop 8 (c :: rest)]
            rw [← htake]
          refine ⟨le_refl _, ?_, hne, ?_, ?_⟩
          · simp only [Nat.sub_self, List.drop_zero]
            conv_rhs => rw [hsplit]
            rw [List.prefix_append_right_inj]
            exact List.takeWhile_prefix Char.isDigit
          · exact List.all_eq_true.mpr (fun d hd => List.mem_takeWhile_imp hd)
          · intro d hd
            simp only [Nat.sub_self, List.drop_zero] at hd
            have hrw : (c :: rest).drop
                  (8 + (((c :: rest).drop 8).takeWhile Char.isDigit).length)
                = ((c :: rest).drop 8).dropWhile Char.isDigit := by
              rw [← List.drop_drop, drop_length_takeWhile]
            rw [hrw] at hd
            have hnd := List.head?_dropWhile_not Char.isDigit ((c :: rest).drop 8)
            rw [hd] at hnd
            exact hnd
        · obtain ⟨h1, h2, h3, h4, h5⟩ := ih _ _ m hm2
          have hrw : (((c :: rest).drop 8).drop
                  (((c :: rest).drop 8).takeWhile Char.isDigit).length).drop
                (m.1 - (pos + 8 + (((c :: rest).drop 8).takeWhile Char.isDigit).length))
              = (c :: rest).drop (m.1 - pos) := by
            rw [List.drop_drop, List.drop_drop]
            congr 1
            omega
          refine ⟨by omega, ?_, h3, h4, ?_⟩
          · rwa [hrw] at h2
          · intro d hd
            refine h5 d ?_
            rwa [hrw]
      · rw [if_neg hcond] at hm
        obtain ⟨h1, h2, h3, h4, h5⟩ := ih rest (pos + 1) m hm
        have hrw : rest.drop (m.1 - (pos + 1)) = (c :: rest).drop (m.1 - pos) := by
          have hx : m.1 - pos = (m.1 - (pos + 1)) + 1 := by omega
          rw [hx, List.drop_succ_cons]
        refine ⟨by omega, ?_, h3, h4, ?_⟩
        · rwa [hrw] at h2
        · intro d hd
          refine h5 d ?_
          rwa [hrw]

theorem findMatches_sound (cs : List Char) (pos : Nat) :
    ∀ m ∈ findMatches cs pos,
      pos ≤ m.1 ∧
      (statusPat ++ m.2) <+: cs.drop (m.1 - pos) ∧
      m.2 ≠ [] ∧ m.2.all Char.isDigit = true ∧
      (∀ d, ((cs.drop (m.1 - pos)).drop (8 + m.2.length)).head? = some d →
        d.isDigit = false) :=
  findMatchesAux_sound cs.length cs pos

theorem upsertRun_mem_ids (as : List UpsertArgs) (s : List Row) (x : String) :
    x ∈ (upsertRun s as).map Row.id
      ↔ x ∈ s.map Row.id ∨ x ∈ as.map UpsertArgs.tweet_id := by
  induction as generalizing s with
  | nil => simp [upsertRun]
  | cons a rest ih =>
    rw [upsertRun, ih]
    unfold upsertCall upsert_tweet
    by_cases h : s.any (fun r => r.id == a.tweet_id)
    · have hmem : a.tweet_id ∈ s.map Row.id := by
        simp only [List.any_eq_true, beq_iff_eq] at h
        obtain ⟨r, hr, hrid⟩ := h
        exact List.mem_map.mpr ⟨r, hr, hrid⟩
      simp only [if_pos h, List.map_cons, List.mem_cons]
      constructor
      · rintro (h1 | h2)
        · exact Or.inl h1
        · exact Or.inr (Or.inr h2)
      · rintro (h1 | h1 | h2)
        · exact Or.inl h1
        · exact Or.inl (by rw [h1]; exact hmem)
        · exact Or.inr h2
    · simp only [if_neg h, List.map_append, List.map_cons, List.map_nil, List.mem_append,
        List.mem_cons, List.not_mem_nil, or_false]
      tauto

theorem upsertRun_nodup_ids (as : List UpsertArgs) (s : List Row)
    (h : (s.map Row.id).Nodup) : ((upsertRun s as).map Row.id).Nodup := by
  induction as generalizing s with
  | nil => exact h
  | cons a rest ih =>
    rw [upsertRun]
    refine ih _ ?_
    unfold upsertCall upsert_tweet
    by_cases hany : s.any (fun r => r.id == a.tweet_id)
    · simpa [hany] using h
    · have hnot : a.tweet_id ∉ s.map Row.id := by
        intro hmem
        obtain ⟨r, hr, hrid⟩ := List.mem_map.mp hmem
        have : s.any (fun r => r.id == a.tweet_id) = true :=
          List.any_eq_true.mpr ⟨r, hr, by simp [hrid]⟩
        exact hany this
      simp only [if_neg hany, List.map_append, List.map_cons, List.map_nil]
      rw [List.nodup_append]
      refine ⟨h, List.nodup_singleton _, ?_⟩
      intro x hx hx2
      simp only [List.mem_singleton] at hx2
      exact hnot (hx2 ▸ hx)

/-- C1: starting from the empty store, after every prefix of an arbitrary
sequence of `upsert_tweet` calls the store holds at most one row per id;
the call at any position returns `true` exactly when no earlier call used
its id (i.e. exactly once per distinct id, on the first insertion), and a
`false`-returning call leaves the store — in particular the already
existing row — unmodified. -/
theorem upsert_returns_true_once_per_id (calls : List UpsertArgs) :
    (∀ k, ((upsertRun [] (calls.take k)).map Row.id).Nodup) ∧
    (∀ pre a post, calls = pre ++ a :: post →
      ((upsertCall (upsertRun [] pre) a).1 = true
          ↔ a.tweet_id ∉ pre.map UpsertArgs.tweet_id) ∧
      ((upsertCall (upsertRun [] pre) a).1 = false →
        (upsertCall (upsertRun [] pre) a).2 = upsertRun [] pre)) := by
  constructor
  · intro k
    exact upsertRun_nodup_ids (calls.take k) [] (by simp)
  · intro pre a post _
    have hiff : (upsertRun [] pre).any (fun r => r.id == a.tweet_id) = true
        ↔ a.tweet_id ∈ pre.map UpsertArgs.tweet_id := by
      constructor
      · intro hany
        simp only [List.any_eq_true, beq_iff_eq] at hany
        obtain ⟨r, hr, hrid⟩ := hany
        have hx : a.tweet_id ∈ (upsertRun [] pre).map Row.id :=
          List.mem_map.mpr ⟨r, hr, hrid⟩
        rcases (upsertRun_mem_ids pre [] a.tweet_id).mp hx with h1 | h2
        · simp at h1
        · exact h2
      · intro hmem
        have hx : a.tweet_id ∈ (upsertRun [] pre).map Row.id :=
          (upsertRun_mem_ids pre [] a.tweet_id).mpr (Or.inr hmem)
        obtain ⟨r, hr, hrid⟩ := List.mem_map.mp hx
        exact List.any_eq_true.mpr ⟨r, hr, by simp [hrid]⟩
    unfold upsertCall upsert_tweet
    by_cases hany : (upsertRun [] pre).any (fun r => r.id == a.tweet_id)
    · simp only [if_pos hany]
      refine ⟨?_, fun _ => by trivial⟩
      constructor
      · intro hfalse
        exact absurd hfalse (by decide)
      · intro hnot
        exact absurd (hiff.mp hany) hnot
    · simp only [if_neg hany]
      refine ⟨?_, fun h => absurd h (by decide)⟩
      constructor
      · intro _ hmem
        exact hany (hiff.mpr hmem)
      · intro _
        trivial

/-- Witness for C1 at the concrete sequence `[callA, callB]` (the shape
of scenario S3): after both calls the ids are still duplicate-free, and
the second call — whose id was already presented — returns `false` and
changes nothing. -/
theorem upsert_returns_true_once_per_id_witness :
    ((upsertRun [] ([callA, callB].take 2)).map Row.id).Nodup ∧
    ((upsertCall (upsertRun [] [callA]) callB).1 = true
        ↔ callB.tweet_id ∉ [callA].map UpsertArgs.tweet_id) ∧
    ((upsertCall (upsertRun [] [callA]) callB).1 = false →
      (upsertCall (upsertRun [] [callA]) callB).2 = upsertRun [] [callA]) :=
  ⟨(upsert_returns_true_once_per_id [callA, callB]).1 2,
   ((upsert_returns_true_once_per_id [callA, callB]).2 [callA] callB [] rfl).1,
   ((upsert_returns_true_once_per_id [callA, callB]).2 [callA] callB [] rfl).2⟩

theorem topIds_congr (n : Nat) (t : String) (s1 s2 : List Row)
    (h : s1.filter (fun r => r.target == t) = s2.filter (fun r => r.target == t)) :
    topIds n t s1 = topIds n t s2 := by
  unfold topIds
  rw [h]

theorem pruneStep_filter_other (n : Nat) (s : List Row) (t t2 : String) (hne : t2 ≠ t) :
    (pruneStep n s t).filter (fun r => r.target == t2)
      = s.filter (fun r => r.target == t2) := by
  unfold pruneStep
  rw [List.filter_filter]
  refine List.filter_congr ?_
  intro r _
  by_cases hr : r.target = t2
  · have hrt : (r.target == t) = false := by
      simp [hr, hne]
    simp [hr, hrt, hne]
  · simp [hr]

theorem pruneStep_filter_self (n : Nat) (s : List Row) (t : String) :
    (pruneStep n s t).filter (fun r => r.target == t)
      = (s.filter (fun r => r.target == t)).filter
          (fun r => (topIds n t s).contains r.id) := by
  unfold pruneStep
  rw [List.filter_filter, List.filter_filter]
  refine List.filter_congr ?_
  intro r _
  by_cases hr : r.target = t
  · simp only [hr, beq_self_eq_true, Bool.and_true, Bool.true_and]
    cases hc : (topIds n t s).contains r.id <;> simp [hc]
  · have hbeq : (r.target == t) = false := by simp [hr]
    simp [hbeq]

theorem prune_fold_filter (n : Nat) (s : List Row) (ts : List String) (hnd : ts.Nodup) :
    ∀ (acc : List Row),
      (∀ t2 ∈ ts, acc.filter (fun r => r.target == t2) = s.filter (fun r => r.target == t2)) →
      ∀ t, (ts.foldl (pruneStep n) acc).filter (fun r => r.target == t)
        = if t ∈ ts
          then (s.filter (fun r => r.target == t)).filter
                 (fun r => (topIds n t s).contains r.id)
          else acc.filter (fun r => r.target == t) := by
  induction ts with
  | nil =>
    intro acc _ t
    simp
  | cons t0 ts2 ih =>
    intro acc hacc t
    rw [List.foldl_cons]
    have hnd2 := List.nodup_cons.mp hnd
    have hacc0 : acc.filter (fun r => r.target == t0) = s.filter (fun r => r.target == t0) :=
      hacc t0 (List.mem_cons_self t0 ts2)
    have hstep : ∀ t2 ∈ ts2, (pruneStep n acc t0).filter (fun r => r.target == t2)
        = s.filter (fun r => r.target == t2) := by
      intro t2 ht2
      have hne : t2 ≠ t0 := fun h => hnd2.1 (h ▸ ht2)
      rw [pruneStep_filter_other n acc t0 t2 hne]
      exact hacc t2 (List.mem_cons_of_mem t0 ht2)
    rw [ih hnd2.2 (pruneStep n acc t0) hstep t]
    by_cases ht : t ∈ ts2
    · rw [if_pos ht, if_pos (List.mem_cons_of_mem t0 ht)]
    · rw [if_neg ht]
      by_cases ht0 : t = t0
      · subst ht0
        rw [if_pos (List.mem_cons_self t ts2)]
        rw [pruneStep_filter_self n acc t, hacc0, topIds_congr n t acc s hacc0]
      · have hnotin : t ∉ t0 :: ts2 := by
          simp [ht, ht0]
        rw [if_neg hnotin]
        exact pruneStep_filter_other n acc t0 t ht0

theorem prune_filter_eq (n : Nat) (s : List Row) (t : String) :
    (prune_old_entries n s).filter (fun r => r.target == t)
      = (s.filter (fun r => r.target == t)).filter
          (fun r => (topIds n t s).contains r.id) := by
  unfold prune_old_entries
  have h := prune_fold_filter n s ((s.map Row.target).dedup) (List.nodup_dedup _) s
    (fun _ _ => rfl) t
  rw [h]
  by_cases ht : t ∈ (s.map Row.target).dedup
  · rw [if_pos ht]
  · rw [if_neg ht]
    have hempty : s.filter (fun r => r.target == t) = [] := by
      rw [List.filter_eq_nil_iff]
      intro r hr hbeq
      rw [beq_iff_eq] at hbeq
      exact ht (List.mem_dedup.mpr (List.mem_map.mpr ⟨r, hr, hbeq⟩))
    rw [hempty, List.filter_nil]

theorem foldl_pruneStep_sublist (n : Nat) (ts : List String) :
    ∀ acc : List Row, List.Sublist (ts.foldl (pruneStep n) acc) acc := by
  induction ts with
  | nil =>
    intro acc
    exact List.Sublist.refl acc
  | cons t0 ts2 ih =>
    intro acc
    exact (ih (pruneStep n acc t0)).trans (List.filter_sublist acc)

theorem sorted_filter_top (n : Nat) (sorted : List Row)
    (hnodup : (sorted.map Row.id).Nodup) :
    sorted.filter (fun r => ((sorted.take n).map Row.id).contains r.id)
      = sorted.take n := by
  have hids : (((sorted.take n).map Row.id) ++ ((sorted.drop n).map Row.id)).Nodup := by
    rw [← List.map_append, List.take_append_drop]
    exact hnodup
  have hdisj := (List.nodup_append.mp hids).2.2
  have htake : (sorted.take n).filter
      (fun r => ((sorted.take n).map Row.id).contains r.id) = sorted.take n := by
    rw [List.filter_eq_self]
    intro r hr
    exact List.contains_iff_exists_mem_beq.mpr
      ⟨r.id, List.mem_map_of_mem Row.id hr, by simp⟩
  have hdrop : (sorted.drop n).filter
      (fun r => ((sorted.take n).map Row.id).contains r.id) = [] := by
    rw [List.filter_eq_nil_iff]
    intro r hr hcon
    obtain ⟨b, hb, hbeq⟩ := List.contains_iff_exists_mem_beq.mp hcon
    rw [beq_iff_eq] at hbeq
    subst hbeq
    exact hdisj hb (List.mem_map_of_mem Row.id hr)
  have hsplit : sorted.filter (fun r => ((sorted.take n).map Row.id).contains r.id)
      = (sorted.take n ++ sorted.drop n).filter
          (fun r => ((sorted.take n).map Row.id).contains r.id) := by
    conv_rhs => rw [List.take_append_drop]
  rw [hsplit, List.filter_append, htake, hdrop, List.append_nil]

/-- C7: for every store and every `N`, `prune(N)` keeps only rows already
in the store; for every target value `t` it retains exactly
`min N (number of rows of t)` of `t`'s rows, and every pruned row of `t`
has `created_at` no larger than every surviving row of `t` — i.e. the
survivors are the `N` most recent, ties resolved arbitrarily.  The rows
of any other target are covered by instantiating `t` with that value. -/
theorem prune_keeps_n_most_recent (n : Nat) (s : List Row)
    (hid : (s.map Row.id).Nodup) (t : String) :
    ((prune_old_entries n s).filter (fun r => r.target == t)).length
        = min n (s.filter (fun r => r.target == t)).length ∧
    (∀ r ∈ prune_old_entries n s, r ∈ s) ∧
    (∀ r ∈ (prune_old_entries n s).filter (fun r => r.target == t),
      ∀ r2 ∈ s.filter (fun r => r.target == t),
        r2 ∉ (prune_old_entries n s).filter (fun r => r.target == t) →
          r2.created_at ≤ r.created_at) := by
  have hF := prune_filter_eq n s t
  have hperm : List.Perm (List.insertionSort createdDesc (s.filter (fun r => r.target == t)))
      (s.filter (fun r => r.target == t)) :=
    List.perm_insertionSort createdDesc _
  have hFnodup : ((s.filter (fun r => r.target == t)).map Row.id).Nodup :=
    ((List.filter_sublist s).map Row.id).nodup hid
  have hsortednodup :
      ((List.insertionSort createdDesc (s.filter (fun r => r.target == t))).map Row.id).Nodup :=
    (hperm.map Row.id).nodup_iff.mpr hFnodup
  have hfiltersorted := sorted_filter_top n
    (List.insertionSort createdDesc (s.filter (fun r => r.target == t))) hsortednodup
  have hK : topIds n t s
      = ((List.insertionSort createdDesc (s.filter (fun r => r.target == t))).take n).map
          Row.id := rfl
  have hpermS : List.Perm ((prune_old_entries n s).filter (fun r => r.target == t))
      ((List.insertionSort createdDesc (s.filter (fun r => r.target == t))).take n) := by
    rw [hF, hK]
    have h1 := (hperm.filter (fun r =>
      (((List.insertionSort createdDesc (s.filter (fun r => r.target == t))).take n).map
          Row.id).contains r.id)).symm
    rw [hfiltersorted] at h1
    exact h1
  refine ⟨?_, ?_, ?_⟩
  · rw [hpermS.length_eq, List.length_take, hperm.length_eq]
  · intro r hr
    have hsub : List.Sublist (prune_old_entries n s) s :=
      foldl_pruneStep_sublist n ((s.map Row.target).dedup) s
    exact hsub.subset hr
  · intro r hr r2 hr2 hnot
    have hrtake : r ∈ (List.insertionSort createdDesc
        (s.filter (fun r => r.target == t))).take n :=
      hpermS.subset hr
    have hr2sorted : r2 ∈ List.insertionSort createdDesc
        (s.filter (fun r => r.target == t)) :=
      hperm.mem_iff.mpr hr2
    have hsplitmem : r2 ∈ (List.insertionSort createdDesc
          (s.filter (fun r => r.target == t))).take n
        ∨ r2 ∈ (List.insertionSort createdDesc
          (s.filter (fun r => r.target == t))).drop n := by
      rw [← List.mem_append, List.take_append_drop]
      exact hr2sorted
    rcases hsplitmem with htk | hdr
    · exact absurd (hpermS.symm.subset htk) hnot
    · have hsorted : List.Sorted createdDesc
          (List.insertionSort createdDesc (s.filter (fun r => r.target == t))) :=
        List.sorted_insertionSort createdDesc _
      have hpairs : List.Pairwise createdDesc
          ((List.insertionSort createdDesc (s.filter (fun r => r.target == t))).take n
            ++ (List.insertionSort createdDesc (s.filter (fun r => r.target == t))).drop n) := by
        rw [List.take_append_drop]
        exact hsorted
      exact (List.pairwise_append.mp hpairs).2.2 r hrtake r2 hdr

example : prune_old_entries 2 s5store
    = [⟨"p2", "user:alice", "b", 2, "\x7b\x7d", 2, "i"⟩,
       ⟨"p3", "user:alice", "c", 3, "\x7b\x7d", 3, "i"⟩] := by decide

/-- Witness for C7 at scenario S5's store with `N = 2`. -/
theorem prune_keeps_n_most_recent_witness :
    (s5store.map Row.id).Nodup ∧
    (((prune_old_entries 2 s5store).filter (fun r => r.target == "user:alice")).length
        = min 2 (s5store.filter (fun r => r.target == "user:alice")).length ∧
      (∀ r ∈ prune_old_entries 2 s5store, r ∈ s5store) ∧
      (∀ r ∈ (prune_old_entries 2 s5store).filter (fun r => r.target == "user:alice"),
        ∀ r2 ∈ s5store.filter (fun r => r.target == "user:alice"),
          r2 ∉ (prune_old_entries 2 s5store).filter (fun r => r.target == "user:alice") →
            r2.created_at ≤ r.created_at)) :=
  ⟨by decide, prune_keeps_n_most_recent 2 s5store (by decide) "user:alice"⟩

theorem forall2_mem_right {α β : Type} {R : α → β → Prop} :
    ∀ {l : List α} {m : List β}, List.Forall₂ R l m → ∀ y ∈ m, ∃ x ∈ l, R x y := by
  intro l m h
  induction h with
  | nil =>
    intro y hy
    cases hy
  | cons hR hrest ih =>
    intro y hy
    rcases List.mem_cons.mp hy with rfl | hy2
    · exact ⟨_, List.mem_cons_self _ _, hR⟩
    · obtain ⟨x, hx, hxy⟩ := ih y hy2
      exact ⟨x, List.mem_cons_of_mem _ hx, hxy⟩

theorem pairwise_transfer {α β : Type} {R : α → β → Prop} {P : α → α → Prop}
    {P2 : β → β → Prop}
    (hcompat : ∀ a b a2 b2, R a a2 → R b b2 → P a b → P2 a2 b2) :
    ∀ {l : List α} {m : List β}, List.Forall₂ R l m → l.Pairwise P → m.Pairwise P2 := by
  intro l m h
  induction h with
  | nil =>
    intro _
    exact List.Pairwise.nil
  | cons hR hrest ih =>
    intro hp
    rcases List.pairwise_cons.mp hp with ⟨hhead, htail⟩
    refine List.pairwise_cons.mpr ⟨?_, ih htail⟩
    intro y hy
    obtain ⟨x, hx, hxy⟩ := forall2_mem_right hrest y hy
    exact hcompat _ _ _ _ hR hxy (hhead x hx)

theorem exportLoop_ok (l : List Row) (h : ∀ r ∈ l, (exportRaw r).isSome) :
    ∃ recs, exportLoop l = Except.ok recs ∧
      List.Forall₂ (fun (r : Row) (e : ExportRec) =>
        e.id = r.id ∧ e.target = r.target ∧ e.content = r.content ∧
        e.created_at = r.created_at ∧ e.fetched_at = r.fetched_at ∧
        e.instanceUrl = r.instanceUrl ∧ exportRaw r = some e.raw) l recs := by
  induction l with
  | nil => exact ⟨[], rfl, List.Forall₂.nil⟩
  | cons r rest ih =>
    obtain ⟨recs, hok, hf⟩ := ih (fun x hx => h x (List.mem_cons_of_mem _ hx))
    have hr := h r (List.mem_cons_self r rest)
    obtain ⟨v, hv⟩ := Option.isSome_iff_exists.mp hr
    refine ⟨{ id := r.id, target := r.target, content := r.content,
              created_at := r.created_at, raw := v,
              fetched_at := r.fetched_at, instanceUrl := r.instanceUrl } :: recs, ?_, ?_⟩
    · simp only [exportLoop, hv, hok]
    · exact List.Forall₂.cons ⟨rfl, rfl, rfl, rfl, rfl, rfl, hv⟩ hf

/-- C9 (amended): the export walks the rows in `created_at`-descending
order; when every row's raw text — with `{}` substituted for an empty
text — parses, the export succeeds and emits exactly one record per row,
ordered by `created_at` descending, each with `raw` re-materialized as
the parsed object.  A row with a non-empty unparsable `raw` text instead
makes the whole export raise (see the counterexample theorem). -/
theorem export_tweets_ordered_lines (s : List Row)
    (h : ∀ r ∈ s, (exportRaw r).isSome) :
    ∃ recs, export_tweets s = Except.ok recs ∧
      recs.length = s.length ∧
      recs.Pairwise (fun a b => b.created_at ≤ a.created_at) ∧
      List.Forall₂ (fun (r : Row) (e : ExportRec) =>
        e.id = r.id ∧ e.target = r.target ∧ e.content = r.content ∧
        e.created_at = r.created_at ∧ e.fetched_at = r.fetched_at ∧
        e.instanceUrl = r.instanceUrl ∧ exportRaw r = some e.raw)
        (List.insertionSort createdDesc s) recs := by
  have hperm := List.perm_insertionSort createdDesc s
  have hall : ∀ r ∈ List.insertionSort createdDesc s, (exportRaw r).isSome := by
    intro r hr
    exact h r (hperm.subset hr)
  obtain ⟨recs, hok, hf⟩ := exportLoop_ok _ hall
  refine ⟨recs, hok, ?_, ?_, hf⟩
  · have hlen := hf.length_eq
    rw [← hlen, hperm.length_eq]
  · have hsorted : List.Pairwise createdDesc (List.insertionSort createdDesc s) :=
      List.sorted_insertionSort createdDesc s
    refine pairwise_transfer ?_ hf hsorted
    intro a b a2 b2 hR1 hR2 hP
    rcases hR1 with ⟨-, -, -, hca1, -, -, -⟩
    rcases hR2 with ⟨-, -, -, hca2, -, -, -⟩
    show b2.created_at ≤ a2.created_at
    rw [hca1, hca2]
    exact hP

/-- C9 counterexample: on a store holding `badRow` the export raises a
decode error instead of emitting the row with `raw = {}` — the code's
`json.loads(row["raw"] or "{}")` substitutes `{}` only for an *empty*
stored text, never for an unparsable one. -/
theorem export_raises_on_unparsable_raw :
    export_tweets [badRow] = Except.error "JSONDecodeError: not json" ∧
    ∀ recs, export_tweets [badRow] ≠ Except.ok recs := by
  refine ⟨rfl, ?_⟩
  intro recs h
  rw [show export_tweets [badRow] = Except.error "JSONDecodeError: not json" from rfl] at h
  exact Except.noConfusion h

/-- Witness for C9's amended theorem at `goodStore`. -/
theorem export_tweets_ordered_lines_witness :
    (∀ r ∈ goodStore, (exportRaw r).isSome) ∧
    (∃ recs, export_tweets goodStore = Except.ok recs ∧
      recs.length = goodStore.length ∧
      recs.Pairwise (fun a b => b.created_at ≤ a.created_at) ∧
      List.Forall₂ (fun (r : Row) (e : ExportRec) =>
        e.id = r.id ∧ e.target = r.target ∧ e.content = r.content ∧
        e.created_at = r.created_at ∧ e.fetched_at = r.fetched_at ∧
        e.instanceUrl = r.instanceUrl ∧ exportRaw r = some e.raw)
        (List.insertionSort createdDesc goodStore) recs) :=
  ⟨by decide, export_tweets_ordered_lines goodStore (by decide)⟩

/-- C5: whenever the client fetch ends in an error — no instance
available, transport failure, or HTTP status ≥ 400 — it returns an empty
entry list together with that error; `_fetch_target` then returns early
with `new = 0`, writes no post row, and leaves every target row (in
particular `last_fetched_id` / `last_fetched_at`) unchanged; and since
`isDue` is monotone in time, a target that was due stays due, so it is
fetched again on the next scheduler cycle. -/
theorem fetch_error_changes_nothing (cfg : ClientConfig) (keepLimit : Option Nat)
    (s : List Row) (targets : List TargetRow) (tr : TargetRow) (pool : PoolState)
    (now1 now2 : ℚ) (nowWall : Nat) (http : HttpOutcome) (e : String)
    (herr : (fetch_target cfg pool now1 now2 http).1.error = some e) :
    (fetch_target cfg pool now1 now2 http).1.entries = [] ∧
    (app_fetch_target cfg keepLimit s targets tr pool now1 now2 nowWall http).1 = s ∧
    (app_fetch_target cfg keepLimit s targets tr pool now1 now2 nowWall http).2.1 = targets ∧
    (app_fetch_target cfg keepLimit s targets tr pool now1 now2 nowWall http).2.2.2.newCount
        = 0 ∧
    (app_fetch_target cfg keepLimit s targets tr pool now1 now2 nowWall http).2.2.2.error
        = some e ∧
    (∀ t2 : TargetRow, ∀ w w2 : Nat, w ≤ w2 → isDue w t2 = true → isDue w2 t2 = true) := by
  have hentries : (fetch_target cfg pool now1 now2 http).1.entries = [] := by
    unfold fetch_target at herr ⊢
    cases hacq : acquire_instance cfg now1 pool with
    | mk r pool1 =>
      rw [hacq] at herr
      cases r with
      | none => rfl
      | some i =>
        cases http with
        | err msg => rfl
        | ok status ct text feed =>
          dsimp only at herr ⊢
          by_cases hst : 400 ≤ status
          · rw [if_pos hst]
          · rw [if_neg hst] at herr
            simp at herr
  have happ : app_fetch_target cfg keepLimit s targets tr pool now1 now2 nowWall http
      = (s, targets, (fetch_target cfg pool now1 now2 http).2,
         ⟨tr.value, 0, some e, (fetch_target cfg pool now1 now2 http).1.instanceUrl⟩) := by
    simp only [app_fetch_target, herr]
  refine ⟨hentries, by rw [happ], by rw [happ], by rw [happ], by rw [happ], ?_⟩
  intro t2 w w2 hw hdue
  cases hlast : t2.last_fetched_at with
  | none => simp [isDue, hlast]
  | some last =>
    simp only [isDue, hlast, decide_eq_true_eq] at hdue ⊢
    omega

/-- Witness for C5: a transport failure on a one-instance pool. -/
theorem fetch_error_changes_nothing_witness :
    (fetch_target cfgEx poolEx 0 0 (HttpOutcome.err "boom")).1.error = some "boom" ∧
    ((fetch_target cfgEx poolEx 0 0 (HttpOutcome.err "boom")).1.entries = [] ∧
      (app_fetch_target cfgEx none [] [trEx] trEx poolEx 0 0 100 (HttpOutcome.err "boom")).1
          = [] ∧
      (app_fetch_target cfgEx none [] [trEx] trEx poolEx 0 0 100 (HttpOutcome.err "boom")).2.1
          = [trEx] ∧
      (app_fetch_target cfgEx none [] [trEx] trEx poolEx 0 0 100
          (HttpOutcome.err "boom")).2.2.2.newCount = 0 ∧
      (app_fetch_target cfgEx none [] [trEx] trEx poolEx 0 0 100
          (HttpOutcome.err "boom")).2.2.2.error = some "boom" ∧
      (∀ t2 : TargetRow, ∀ w w2 : Nat, w ≤ w2 → isDue w t2 = true → isDue w2 t2 = true)) :=
  ⟨by norm_num [fetch_target, acquire_instance, acquireLoop, refill_tokens, cfgEx, poolEx],
   fetch_error_changes_nothing cfgEx none [] [trEx] trEx poolEx 0 0 100
     (HttpOutcome.err "boom") "boom"
     (by norm_num [fetch_target, acquire_instance, acquireLoop, refill_tokens, cfgEx, poolEx])⟩

/-- C10: a fetch that succeeds at the HTTP and parse level but yields
zero entries still updates the target's fetch state — `last_fetched_id`
becomes `None` and `last_fetched_at` the current instant — so the target
is not due again until its (effective) poll interval elapses; nothing new
is stored: the summary reports `new = 0` and the store at most loses rows
(to pruning, when it is configured). -/
theorem empty_fetch_updates_state (cfg : ClientConfig) (keepLimit : Option Nat)
    (s : List Row) (targets : List TargetRow) (tr : TargetRow) (pool : PoolState)
    (now1 now2 : ℚ) (nowWall : Nat) (http : HttpOutcome)
    (hok : (fetch_target cfg pool now1 now2 http).1.error = none)
    (hempty : (fetch_target cfg pool now1 now2 http).1.entries = []) :
    (∀ t2 ∈ (app_fetch_target cfg keepLimit s targets tr pool now1 now2 nowWall http).2.1,
      t2.id = tr.id → t2.last_fetched_id = none ∧ t2.last_fetched_at = some nowWall) ∧
    List.Sublist
      (app_fetch_target cfg keepLimit s targets tr pool now1 now2 nowWall http).1 s ∧
    (app_fetch_target cfg keepLimit s targets tr pool now1 now2 nowWall http).2.2.2.newCount
        = 0 ∧
    (∀ t2 ∈ (app_fetch_target cfg keepLimit s targets tr pool now1 now2 nowWall http).2.1,
      t2.id = tr.id → ∀ w : Nat, w < nowWall + effInterval t2 → isDue w t2 = false) := by
  have htargets : (app_fetch_target cfg keepLimit s targets tr pool now1 now2 nowWall http).2.1
      = update_target_fetch_state targets tr.id none (some nowWall) := by
    simp [app_fetch_target, hok, hempty]
  have hstore : (app_fetch_target cfg keepLimit s targets tr pool now1 now2 nowWall http).1
      = (store_entries keepLimit tr
          (fetch_target cfg pool now1 now2 http).1.instanceUrl nowWall s []).1 := by
    simp [app_fetch_target, hok, hempty]
  have hcount : (app_fetch_target cfg keepLimit s targets tr pool
        now1 now2 nowWall http).2.2.2.newCount
      = (store_entries keepLimit tr
          (fetch_target cfg pool now1 now2 http).1.instanceUrl nowWall s []).2 := by
    simp [app_fetch_target, hok, hempty]
  have hstore1 : ∀ inst, (store_entries keepLimit tr inst nowWall s []).2 = 0 := by
    intro inst
    unfold store_entries
    cases keepLimit with
    | none => rfl
    | some k =>
      by_cases hk : k = 0
      · simp [hk]
      · simp [hk]
  have hstore2 : ∀ inst, List.Sublist (store_entries keepLimit tr inst nowWall s []).1 s := by
    intro inst
    unfold store_entries
    cases keepLimit with
    | none => exact List.Sublist.refl s
    | some k =>
      by_cases hk : k = 0
      · simp only [hk, List.foldl_nil, if_pos rfl]
        exact List.Sublist.refl s
      · simp only [hk, List.foldl_nil, if_neg hk]
        exact foldl_pruneStep_sublist k ((s.map Row.target).dedup) s
  have hupd : ∀ t2 ∈ (app_fetch_target cfg keepLimit s targets tr pool
        now1 now2 nowWall http).2.1,
      t2.id = tr.id → t2.last_fetched_id = none ∧ t2.last_fetched_at = some nowWall := by
    intro t2 ht2 hid
    rw [htargets] at ht2
    unfold update_target_fetch_state at ht2
    obtain ⟨tr0, htr0, heq⟩ := List.mem_map.mp ht2
    by_cases hmatch : tr0.id == tr.id
    · rw [if_pos hmatch] at heq
      rw [← heq]
      exact ⟨rfl, rfl⟩
    · rw [if_neg hmatch] at heq
      rw [← heq] at hid
      simp only [beq_iff_eq] at hmatch
      exact absurd hid hmatch
  refine ⟨hupd, ?_, ?_, ?_⟩
  · rw [hstore]
    exact hstore2 _
  · rw [hcount]
    exact hstore1 _
  · intro t2 ht2 hid w hw
    have h2 := (hupd t2 ht2 hid).2
    have heff : 1 ≤ effInterval t2 := by
      unfold effInterval
      by_cases h : t2.poll_interval_seconds = 0
      · simp [h]
      · simp only [if_neg h]
        omega
    simp only [isDue, h2, decide_eq_false_iff_not]
    omega

/-- Witness for C10: a syndication response whose feed holds no entries
(XML content type, so the fallback stays off). -/
theorem empty_fetch_updates_state_witness :
    (fetch_target cfgEx poolEx 0 0
        (HttpOutcome.ok 200 "application/xml" "" ⟨false, []⟩)).1.error = none ∧
    (fetch_target cfgEx poolEx 0 0
        (HttpOutcome.ok 200 "application/xml" "" ⟨false, []⟩)).1.entries = [] ∧
    ((∀ t2 ∈ (app_fetch_target cfgEx none [] [trEx] trEx poolEx 0 0 100
          (HttpOutcome.ok 200 "application/xml" "" ⟨false, []⟩)).2.1,
        t2.id = trEx.id → t2.last_fetched_id = none ∧ t2.last_fetched_at = some 100) ∧
      List.Sublist (app_fetch_target cfgEx none [] [trEx] trEx poolEx 0 0 100
          (HttpOutcome.ok 200 "application/xml" "" ⟨false, []⟩)).1 [] ∧
      (app_fetch_target cfgEx none [] [trEx] trEx poolEx 0 0 100
          (HttpOutcome.ok 200 "application/xml" "" ⟨false, []⟩)).2.2.2.newCount = 0 ∧
      (∀ t2 ∈ (app_fetch_target cfgEx none [] [trEx] trEx poolEx 0 0 100
          (HttpOutcome.ok 200 "application/xml" "" ⟨false, []⟩)).2.1,
        t2.id = trEx.id → ∀ w : Nat, w < 100 + effInterval t2 → isDue w t2 = false)) :=
  ⟨by norm_num [fetch_target, acquire_instance, acquireLoop, refill_tokens, cfgEx, poolEx,
      parse_rss, containsSub],
   by norm_num [fetch_target, acquire_instance, acquireLoop, refill_tokens, cfgEx, poolEx,
      parse_rss, containsSub],
   empty_fetch_updates_state cfgEx none [] [trEx] trEx poolEx 0 0 100
     (HttpOutcome.ok 200 "application/xml" "" ⟨false, []⟩)
     (by norm_num [fetch_target, acquire_instance, acquireLoop, refill_tokens, cfgEx, poolEx,
        parse_rss, containsSub])
     (by norm_num [fetch_target, acquire_instance, acquireLoop, refill_tokens, cfgEx, poolEx,
        parse_rss, containsSub])⟩

/-- C6 counterexample: on `c6body` the fallback synthesizes exactly one
entry with id `"1"`, but its summary is the whitespace-normalized
`html[max(0,start-200) : max(0,start-200)+400]` — here the whole
210-character body — which differs from the claimed window of 200
characters preceding plus 200 following the match under either reading
(with or without the match text): both stop 200 characters after the
match, the code stops 400 characters after the match START. -/
theorem parse_html_window_counterexample :
    (parse_html c6body).map (fun e => e.id) = ["1"] ∧
    (∀ e ∈ parse_html c6body,
      e.summary ≠ String.mk (normWs (claimWindowPieces c6body.data 0 9)) ∧
      e.summary ≠ String.mk (normWs (claimWindowAround c6body.data 0 9))) := by
  decide

theorem prefix_getElem? {α : Type} {l1 l2 : List α} (h : l1 <+: l2) {i : Nat}
    (hi : i < l1.length) : l2[i]? = l1[i]? := by
  obtain ⟨t, rfl⟩ := h
  exact List.getElem?_append_left hi

/-- Key no-overlap fact of the pattern `/status/(\d+)`: an occurrence of
`/status/<digit>` can never start strictly inside a match (the eight
pattern characters and the digit run leave no position where a second
`/status/` followed by a digit could begin), so resuming the scan at the
end of a match — as `finditer` does — skips no occurrence. -/
theorem occurrence_not_inside_match (cs : List Char) (q : Nat) (d : Char)
    (hpre : statusPat <+: cs)
    (hne : (cs.drop 8).takeWhile Char.isDigit ≠ [])
    (hq : (statusPat ++ [d]) <+: cs.drop q) (hd : d.isDigit = true)
    (h1 : 1 ≤ q) :
    8 + ((cs.drop 8).takeWhile Char.isDigit).length ≤ q := by
  by_contra hlt
  push_neg at hlt
  have hocc : ∀ i : Nat, i < 9 → cs[q + i]? = (statusPat ++ [d])[i]? := by
    intro i hi
    have h2 := prefix_getElem? hq (i := i) (by simpa [statusPat] using hi)
    rw [List.getElem?_drop] at h2
    exact h2
  have hstat : ∀ i : Nat, i < 8 → cs[i]? = statusPat[i]? := by
    intro i hi
    exact prefix_getElem? hpre (by simpa [statusPat] using hi)
  have hdig : ∀ j : Nat, j < ((cs.drop 8).takeWhile Char.isDigit).length →
      ∃ dj, cs[8 + j]? = some dj ∧ dj.isDigit = true := by
    intro j hj
    have hpre2 : (cs.drop 8).takeWhile Char.isDigit <+: cs.drop 8 :=
      List.takeWhile_prefix Char.isDigit
    have h3 := prefix_getElem? hpre2 (i := j) hj
    rw [List.getElem?_drop] at h3
    have h4 : ((cs.drop 8).takeWhile Char.isDigit)[j]?
        = some (((cs.drop 8).takeWhile Char.isDigit)[j]) :=
      List.getElem?_eq_getElem hj
    refine ⟨((cs.drop 8).takeWhile Char.isDigit)[j], h3.trans h4, ?_⟩
    exact List.mem_takeWhile_imp (List.getElem?_mem h4)
  have hq0 : cs[q]? = some '/' := by
    have h5 := hocc 0 (by omega)
    simpa [statusPat] using h5
  rcases Nat.lt_or_ge q 8 with hq8 | hq8
  · rcases Nat.lt_or_ge q 7 with hq7 | hq7
    · have hc := hstat q (by omega)
      rw [hq0] at hc
      interval_cases q <;> simp [statusPat] at hc
    · have hq7e : q = 7 := by omega
      subst hq7e
      have h8 : cs[8]? = some 's' := by
        have h6 := hocc 1 (by omega)
        simpa [statusPat] using h6
      have hlen1 : 0 < ((cs.drop 8).takeWhile Char.isDigit).length :=
        List.length_pos.mpr hne
      obtain ⟨d0, hd0, hd0dig⟩ := hdig 0 hlen1
      rw [show 8 + 0 = 8 from rfl, h8] at hd0
      injection hd0 with hsd
      rw [← hsd] at hd0dig
      exact absurd hd0dig (by decide)
  · obtain ⟨dj, hdj, hdjdig⟩ := hdig (q - 8) (by omega)
    rw [show 8 + (q - 8) = q from by omega, hq0] at hdj
    injection hdj with hsd
    rw [← hsd] at hdjdig
    exact absurd hdjdig (by decide)

/-- Completeness of the scanner: every occurrence of `/status/<digit>` in
the input is reported, at its exact position, with the maximal digit run
after it.  (Together with `occurrence_not_inside_match` this shows the
code's resume-at-match-end scanning loses nothing.) -/
theorem findMatchesAux_complete (fuel : Nat) :
    ∀ (cs : List Char) (pos q : Nat) (d : Char),
      cs.length ≤ fuel →
      (statusPat ++ [d]) <+: cs.drop q → d.isDigit = true →
      ∃ m ∈ findMatchesAux fuel cs pos,
        m.1 = pos + q ∧ m.2 = ((cs.drop q).drop 8).takeWhile Char.isDigit := by
  induction fuel with
  | zero =>
    intro cs pos q d hlen hq hd
    have hnil : cs = [] := List.length_eq_zero.mp (Nat.le_zero.mp hlen)
    subst hnil
    have h9 := hq.length_le
    simp [statusPat] at h9
  | succ k ih =>
    intro cs pos q d hlen hq hd
    match cs with
    | [] =>
      have h9 := hq.length_le
      simp [statusPat] at h9
    | c :: rest =>
      rw [findMatchesAux]
      by_cases hcond : (statusPat.isPrefixOf (c :: rest)
          && !(((c :: rest).drop 8).takeWhile Char.isDigit).isEmpty) = true
      · rw [if_pos hcond]
        have hand := Bool.and_eq_true_iff.mp hcond
        have hpre : statusPat <+: (c :: rest) := List.isPrefixOf_iff_prefix.mp hand.1
        have hne : ((c :: rest).drop 8).takeWhile Char.isDigit ≠ [] := by
          intro hnil
          rw [hnil] at hand
          simp at hand
        rcases Nat.eq_zero_or_pos q with rfl | hqpos
        · refine ⟨(pos, ((c :: rest).drop 8).takeWhile Char.isDigit),
            List.mem_cons_self _ _, by simp, by simp⟩
        · have hge := occurrence_not_inside_match (c :: rest) q d hpre hne hq hd hqpos
          have hlen1 : 0 < (((c :: rest).drop 8).takeWhile Char.isDigit).length :=
            List.length_pos.mpr hne
          have hdropeq : (((c :: rest).drop 8).drop
                (((c :: rest).drop 8).takeWhile Char.isDigit).length).drop
              (q - (8 + (((c :: rest).drop 8).takeWhile Char.isDigit).length))
              = (c :: rest).drop q := by
            rw [List.drop_drop, List.drop_drop]
            congr 1
            omega
          have hlen2 : ((((c :: rest).drop 8).drop
              (((c :: rest).drop 8).takeWhile Char.isDigit).length)).length ≤ k := by
            simp only [List.length_drop, List.length_cons]
            simp only [List.length_cons] at hlen
            omega
          obtain ⟨m, hm, hm1, hm2⟩ := ih _
            (pos + 8 + (((c :: rest).drop 8).takeWhile Char.isDigit).length)
            (q - (8 + (((c :: rest).drop 8).takeWhile Char.isDigit).length)) d hlen2
            (by rw [hdropeq]; exact hq) hd
          refine ⟨m, List.mem_cons_of_mem _ hm, ?_, ?_⟩
          · rw [hm1]
            omega
          · rw [hm2, hdropeq]
      · rw [if_neg hcond]
        rcases Nat.eq_zero_or_pos q with rfl | hqpos
        · exfalso
          apply hcond
          rw [List.drop_zero] at hq
          obtain ⟨t, ht⟩ := hq
          rw [Bool.and_eq_true_iff]
          constructor
          · refine List.isPrefixOf_iff_prefix.mpr ⟨[d] ++ t, ?_⟩
            rw [← List.append_assoc]
            exact ht
          · have h8 : (c :: rest).drop 8 = d :: t := by
              rw [← ht, List.append_assoc]
              exact List.drop_left' rfl
            rw [h8]
            simp [List.takeWhile_cons, hd]
        · have hrest : rest.drop (q - 1) = (c :: rest).drop q := by
            obtain ⟨q2, rfl⟩ : ∃ q2, q = q2 + 1 := ⟨q - 1, by omega⟩
            simp [List.drop_succ_cons]
          obtain ⟨m, hm, hm1, hm2⟩ := ih rest (pos + 1) (q - 1) d
            (by simp only [List.length_cons] at hlen; omega)
            (by rw [hrest]; exact hq) hd
          refine ⟨m, hm, ?_, ?_⟩
          · rw [hm1]
            omega
          · rw [hm2, hrest]

/-- The positions reported by the scanner are strictly increasing, so
each position carries at most one match. -/
theorem findMatchesAux_increasing (fuel : Nat) :
    ∀ (cs : List Char) (pos : Nat),
      ((findMatchesAux fuel cs pos).map Prod.fst).Pairwise (fun a b => a < b) := by
  induction fuel with
  | zero =>
    intro cs pos
    simp [findMatchesAux]
  | succ k ih =>
    intro cs pos
    match cs with
    | [] => simp [findMatchesAux]
    | c :: rest =>
      rw [findMatchesAux]
      by_cases hcond : (statusPat.isPrefixOf (c :: rest)
          && !(((c :: rest).drop 8).takeWhile Char.isDigit).isEmpty) = true
      · rw [if_pos hcond]
        rw [List.map_cons, List.pairwise_cons]
        constructor
        · intro b hb
          obtain ⟨m, hm, rfl⟩ := List.mem_map.mp hb
          have h1 := (findMatchesAux_sound k _ _ m hm).1
          omega
        · exact ih _ _
      · rw [if_neg hcond]
        exact ih _ _

/-- C6 (amended): for every response body, the HTML fallback synthesizes
exactly one record per occurrence of `/status/<digits>`: (1) every
position where `/status/` followed by a digit occurs is matched, exactly
there, with the maximal digit run as the captured sequence; (2) the match
positions are strictly increasing, so no position is reported twice;
(3) the records are, one for one in order, built from the matches — id
the digit sequence, summary the whitespace-normalized 400-character slice
starting 200 characters before the match START (clamped at the body
start), i.e. `html[max(0,start-200) : max(0,start-200)+400]`, that
excerpt stored under `raw`; (4) conversely every synthesized record comes
from such an occurrence (maximality included); and (5) in scenario S4 —
`text/html` content type, no syndication entries — the fallback is
engaged and a body containing `href="/user/status/12345"` yields exactly
one entry, with id `"12345"` and no error. -/
theorem html_fallback_characterization :
    (∀ html : String, ∀ p : Nat, ∀ d : Char,
        (statusPat ++ [d]) <+: html.data.drop p → d.isDigit = true →
        ∃ m ∈ findMatches html.data 0, m.1 = p ∧
          m.2 = ((html.data.drop p).drop 8).takeWhile Char.isDigit) ∧
    (∀ html : String,
      ((findMatches html.data 0).map Prod.fst).Pairwise (fun a b => a < b)) ∧
    (∀ html : String,
      List.Forall₂ (fun (m : Nat × List Char) (e : Entry) =>
          e.id = String.mk m.2 ∧
          e.summary = String.mk (normWs ((html.data.drop (m.1 - 200)).take 400)) ∧
          e.raw = JsonVal.obj [("excerpt", JsonVal.str e.summary)] ∧
          e.title = "Tweet" ∧ e.link = e.id ∧ e.published = none)
        (findMatches html.data 0) (parse_html html)) ∧
    (∀ html : String, ∀ e ∈ parse_html html, ∃ startPos ds,
        e.id = String.mk ds ∧ ds ≠ [] ∧ ds.all Char.isDigit = true ∧
        (statusPat ++ ds) <+: html.data.drop startPos ∧
        (∀ d, ((html.data.drop startPos).drop (8 + ds.length)).head? = some d →
          d.isDigit = false) ∧
        e.summary = String.mk (normWs ((html.data.drop (startPos - 200)).take 400)) ∧
        e.raw = JsonVal.obj [("excerpt", JsonVal.str e.summary)] ∧
        e.title = "Tweet" ∧ e.link = e.id ∧ e.published = none) ∧
    ((fetch_target cfgEx poolEx 0 0 s4http).1.entries.map (fun e => e.id) = ["12345"] ∧
      (fetch_target cfgEx poolEx 0 0 s4http).1.error = none) := by
  refine ⟨?_, ?_, ?_, ?_, ?_⟩
  · intro html p d hp hd
    obtain ⟨m, hm, hm1, hm2⟩ :=
      findMatchesAux_complete html.data.length html.data 0 p d (le_refl _) hp hd
    exact ⟨m, hm, by omega, hm2⟩
  · intro html
    exact findMatchesAux_increasing html.data.length html.data 0
  · intro html
    unfold parse_html
    rw [List.forall₂_map_right_iff, List.forall₂_same]
    intro m _
    exact ⟨rfl, rfl, rfl, rfl, rfl, rfl⟩
  · intro html e he
    unfold parse_html at he
    obtain ⟨m, hm, heq⟩ := List.mem_map.mp he
    obtain ⟨h1, h2, h3, h4, h5⟩ := findMatches_sound html.data 0 m hm
    simp only [Nat.sub_zero] at h2 h5
    refine ⟨m.1, m.2, ?_, h3, h4, h2, h5, ?_, ?_, ?_, ?_, ?_⟩
    · rw [← heq]
    · rw [← heq]
    · rw [← heq]
    · rw [← heq]
    · rw [← heq]
    · rw [← heq]
  · have hcond : ((parse_rss (⟨true, []⟩ : Feed)).isEmpty
        && !(containsSub "xml".data ("text/html" : String).data)) = true := by decide
    have hfetch : (fetch_target cfgEx poolEx 0 0 s4http).1.entries = parse_html s4body := by
      norm_num [fetch_target, acquire_instance, acquireLoop, refill_tokens, cfgEx, poolEx,
        s4http, hcond]
    constructor
    · rw [hfetch]
      decide
    · norm_num [fetch_target, acquire_instance, acquireLoop, refill_tokens, cfgEx, poolEx,
        s4http, hcond]

/-- Witness for C6's amended theorem at scenario S4's body: the
occurrence at position 20 (where `/status/12345` sits inside the body)
discharges the completeness hypotheses, and the single synthesized entry
discharges the soundness ones. -/
theorem html_fallback_characterization_witness :
    ((statusPat ++ ['1']) <+: s4body.data.drop 20 ∧ ('1' : Char).isDigit = true ∧
      ∃ m ∈ findMatches s4body.data 0, m.1 = 20 ∧
        m.2 = ((s4body.data.drop 20).drop 8).takeWhile Char.isDigit) ∧
    (s4entry ∈ parse_html s4body ∧
      ∃ startPos ds, s4entry.id = String.mk ds ∧ ds ≠ [] ∧ ds.all Char.isDigit = true ∧
        (statusPat ++ ds) <+: s4body.data.drop startPos ∧
        (∀ d, ((s4body.data.drop startPos).drop (8 + ds.length)).head? = some d →
          d.isDigit = false) ∧
        s4entry.summary = String.mk (normWs ((s4body.data.drop (startPos - 200)).take 400)) ∧
        s4entry.raw = JsonVal.obj [("excerpt", JsonVal.str s4entry.summary)] ∧
        s4entry.title = "Tweet" ∧ s4entry.link = s4entry.id ∧ s4entry.published = none) := by
  have hmem : s4entry ∈ parse_html s4body := by
    rw [show parse_html s4body = [s4entry] from rfl]
    exact List.mem_singleton.mpr rfl
  exact ⟨⟨by decide, by decide,
      html_fallback_characterization.1 s4body 20 '1' (by decide) (by decide)⟩,
    hmem, html_fallback_characterization.2.2.2.1 s4body s4entry hmem⟩

end Nitter
